import Mathlib

/-!
Verification development for the isometric plugin (axonometric projector,
octree spatial index, arcade-style 3D AABB physics).

Shallow embedding conventions:
* JavaScript numbers are modelled as rationals (`ℚ`); the projector, whose
  claims involve trigonometric angles, is additionally stated over a general
  `Field` and instantiated at `ℝ`.
* JavaScript `Math.round` is `fun q => ⌊q + 1/2⌋` (round half toward +∞),
  `Math.floor` is `Int.floor`; both are exact for rationals.
* In-place mutation is modelled by returning updated records; functions that
  mutate their arguments and return a boolean return the boolean together
  with the updated records.
* `Math.sqrt`, used only in the both-movable velocity-exchange branch of the
  per-axis separation routines, is an irrational float operation; it is kept
  abstract as an explicit function parameter so that every definition stays
  executable. No theorem below depends on its values.
-/

namespace IsoPlugin

/-- JavaScript Math.round for rationals: floor of q + 1/2 (half goes up). -/
def jsRound (q : ℚ) : ℚ := ((⌊q + 1/2⌋ : ℤ) : ℚ)

/-- JavaScript Math.floor for rationals. -/
def jsFloor (q : ℚ) : ℚ := ((⌊q⌋ : ℤ) : ℚ)

/-! ## Geometry primitives (Point3, Cube) -/

/-- A 3D point, componentwise rational. -/
structure Point3 where
  x : ℚ
  y : ℚ
  z : ℚ
deriving DecidableEq, Repr

/-- Axis-aligned box: back-bottom corner plus extents (Cube.js). -/
structure Cube where
  x : ℚ
  y : ℚ
  z : ℚ
  widthX : ℚ
  widthY : ℚ
  height : ℚ
deriving DecidableEq, Repr

def Cube.frontX (a : Cube) : ℚ := a.x + a.widthX

def Cube.frontY (a : Cube) : ℚ := a.y + a.widthY

def Cube.top (a : Cube) : ℚ := a.z + a.height

/-- Cube.halfWidthX getter: Math.round(widthX * 0.5). -/
def Cube.halfWidthX (a : Cube) : ℚ := jsRound (a.widthX * (1/2))

def Cube.halfWidthY (a : Cube) : ℚ := jsRound (a.widthY * (1/2))

def Cube.halfHeight (a : Cube) : ℚ := jsRound (a.height * (1/2))

def Cube.centerX (a : Cube) : ℚ := a.x + a.halfWidthX

def Cube.centerY (a : Cube) : ℚ := a.y + a.halfWidthY

def Cube.centerZ (a : Cube) : ℚ := a.z + a.halfHeight

/-- Cube.contains(a, x, y, z): empty boxes contain nothing; otherwise the
boundary is inclusive on all six faces. -/
def Cube.contains (a : Cube) (x y z : ℚ) : Bool :=
  if a.widthX ≤ 0 ∨ a.widthY ≤ 0 ∨ a.height ≤ 0 then false
  else decide (x ≥ a.x ∧ x ≤ a.frontX ∧ y ≥ a.y ∧ y ≤ a.frontY ∧ z ≥ a.z ∧ z ≤ a.top)

/-- Cube.intersects(a, b): empty boxes never intersect; the separation tests
use strict comparisons, so exactly touching faces still count as
intersecting. -/
def Cube.intersects (a b : Cube) : Bool :=
  if a.widthX ≤ 0 ∨ a.widthY ≤ 0 ∨ a.height ≤ 0 ∨
      b.widthX ≤ 0 ∨ b.widthY ≤ 0 ∨ b.height ≤ 0 then false
  else !(decide (a.frontX < b.x ∨ a.frontY < b.y ∨ a.x > b.frontX ∨
      a.y > b.frontY ∨ a.z > b.top ∨ a.top < b.z))

/-! ## Projector (projection-angle version of Projector.js)

The cached field `_transform = [cos angle, sin angle]` is represented by the
two fields `transform0` and `transform1`; `game.world` data appearing in
`project`/`unproject` is carried as explicit fields. Stated over a general
field so the same text serves executable rational instances and the real
instance with actual cosine and sine values. -/

structure Projector (F : Type) where
  transform0 : F
  transform1 : F
  worldX : F
  worldY : F
  worldWidth : F
  worldHeight : F
  anchorX : F
  anchorY : F

variable {F : Type} [Field F]

/-- Projector.project: screen = ((x−y)·t0 + W·ax, (x+y)·t1 − z + H·ay). -/
def Projector.project (p : Projector F) (px py pz : F) : F × F :=
  let ox := (px - py) * p.transform0 + p.worldWidth * p.anchorX
  let oy := (px + py) * p.transform1 - pz + p.worldHeight * p.anchorY
  (ox, oy)

/-- Projector.unproject at a chosen z-plane. -/
def Projector.unproject (p : Projector F) (sx sy z : F) : F × F × F :=
  let x := sx - p.worldX - p.worldWidth * p.anchorX
  let y := sy - p.worldY - p.worldHeight * p.anchorY + z
  (x / (2 * p.transform0) + y / (2 * p.transform1),
   -(x / (2 * p.transform0)) + y / (2 * p.transform1),
   z)

/-! ## Physics body (Body.js), restricted to the state the separation and
velocity-integration routines read and write. -/

/-- Directional face flags (touching / wasTouching / checkCollision). -/
structure FaceFlags where
  noneF : Bool
  up : Bool
  down : Bool
  backX : Bool
  backY : Bool
  frontX : Bool
  frontY : Bool
deriving DecidableEq, Repr

structure Body where
  enable : Bool
  moves : Bool
  immovable : Bool
  allowGravity : Bool
  position : Point3
  prev : Point3
  widthX : ℚ
  widthY : ℚ
  height : ℚ
  velocity : Point3
  bounce : Point3
  gravity : Point3
  mass : ℚ
  checkCollision : FaceFlags
  touching : FaceFlags
  customSeparateX : Bool
  customSeparateY : Bool
  customSeparateZ : Bool
  overlapX : ℚ
  overlapY : ℚ
  overlapZ : ℚ
  embedded : Bool
deriving DecidableEq, Repr

def Body.x (b : Body) : ℚ := b.position.x

def Body.y (b : Body) : ℚ := b.position.y

def Body.z (b : Body) : ℚ := b.position.z

def Body.frontX (b : Body) : ℚ := b.position.x + b.widthX

def Body.frontY (b : Body) : ℚ := b.position.y + b.widthY

def Body.top (b : Body) : ℚ := b.position.z + b.height

def Body.deltaX (b : Body) : ℚ := b.position.x - b.prev.x

def Body.deltaY (b : Body) : ℚ := b.position.y - b.prev.y

def Body.deltaZ (b : Body) : ℚ := b.position.z - b.prev.z

def Body.deltaAbsX (b : Body) : ℚ := if b.deltaX > 0 then b.deltaX else -b.deltaX

def Body.deltaAbsY (b : Body) : ℚ := if b.deltaY > 0 then b.deltaY else -b.deltaY

def Body.deltaAbsZ (b : Body) : ℚ := if b.deltaZ > 0 then b.deltaZ else -b.deltaZ

/-- The arcade world state read by the routines under verification:
gravity, the OVERLAP_BIAS constant (4 by default), the forceXY flag and the
frame time game.time.physicsElapsed. -/
structure ArcadeWorld where
  gravity : Point3
  overlapBias : ℚ
  forceXY : Bool
  physicsElapsed : ℚ
deriving DecidableEq, Repr

namespace Arcade

/-- Arcade.intersects: strict overlap required on all three axes; faces that
merely touch yield false. -/
def intersects (body1 body2 : Body) : Bool :=
  if body1.frontX ≤ body2.x then false
  else if body1.frontY ≤ body2.y then false
  else if body1.x ≥ body2.frontX then false
  else if body1.y ≥ body2.frontY then false
  else if body1.top ≤ body2.z then false
  else if body1.z ≥ body2.top then false
  else true

/-- Arcade.computeVelocity: apply gravity (per axis, when allowed), then
acceleration or else drag, then clamp.  JS applies max = max or 10000 when
the given max is falsy (zero). -/
def computeVelocity (w : ArcadeWorld) (axis : ℕ) (body : Body)
    (velocity acceleration drag maxV : ℚ) : ℚ :=
  let m := if maxV = 0 then 10000 else maxV
  let v1 :=
    if axis = 1 ∧ body.allowGravity then
      velocity + (w.gravity.x + body.gravity.x) * w.physicsElapsed
    else if axis = 2 ∧ body.allowGravity then
      velocity + (w.gravity.y + body.gravity.y) * w.physicsElapsed
    else if axis = 3 ∧ body.allowGravity then
      velocity + (w.gravity.z + body.gravity.z) * w.physicsElapsed
    else velocity
  let v2 :=
    if acceleration ≠ 0 then v1 + acceleration * w.physicsElapsed
    else if drag ≠ 0 then
      let d := drag * w.physicsElapsed
      if v1 - d > 0 then v1 - d
      else if v1 + d < 0 then v1 + d
      else 0
    else v1
  if v2 > m then m
  else if v2 < -m then -m
  else v2

/-- Arcade.separateX.  Returns the boolean result together with the updated
bodies (the source mutates them in place).  sqrtFn abstracts Math.sqrt. -/
def separateX (sqrtFn : ℚ → ℚ) (w : ArcadeWorld) (body1 body2 : Body)
    (overlapOnly : Bool) : Bool × Body × Body :=
  if body1.immovable && body2.immovable then (false, body1, body2)
  else if intersects body1 body2 then
    let maxOverlap := body1.deltaAbsX + body2.deltaAbsX + w.overlapBias
    let step :
        ℚ × Body × Body :=
      if body1.deltaX = 0 ∧ body2.deltaX = 0 then
        (0, { body1 with embedded := true }, { body2 with embedded := true })
      else if body1.deltaX > body2.deltaX then
        let ov := body1.frontX - body2.x
        if ov > maxOverlap ∨ body1.checkCollision.frontX = false ∨
            body2.checkCollision.backX = false then
          (0, body1, body2)
        else
          (ov,
           { body1 with touching := { body1.touching with noneF := false, frontX := true } },
           { body2 with touching := { body2.touching with noneF := false, backX := true } })
      else if body1.deltaX < body2.deltaX then
        let ov := body1.x - body2.widthX - body2.x
        if -ov > maxOverlap ∨ body1.checkCollision.backX = false ∨
            body2.checkCollision.frontX = false then
          (0, body1, body2)
        else
          (ov,
           { body1 with touching := { body1.touching with noneF := false, backX := true } },
           { body2 with touching := { body2.touching with noneF := false, frontX := true } })
      else (0, body1, body2)
    let ov := step.1
    let b1 := step.2.1
    let b2 := step.2.2
    if ov ≠ 0 then
      let b1 := { b1 with overlapX := ov }
      let b2 := { b2 with overlapX := ov }
      if overlapOnly || b1.customSeparateX || b2.customSeparateX then (true, b1, b2)
      else
        let v1 := b1.velocity.x
        let v2 := b2.velocity.x
        if !b1.immovable && !b2.immovable then
          let ov2 := ov * (1/2)
          let b1 := { b1 with position := { b1.position with x := b1.position.x - ov2 } }
          let b2 := { b2 with position := { b2.position with x := b2.position.x + ov2 } }
          let nv1 := sqrtFn ((v2 * v2 * b2.mass) / b1.mass) * (if v2 > 0 then 1 else -1)
          let nv2 := sqrtFn ((v1 * v1 * b1.mass) / b2.mass) * (if v1 > 0 then 1 else -1)
          let avg := (nv1 + nv2) * (1/2)
          let nv1 := nv1 - avg
          let nv2 := nv2 - avg
          let b1 := { b1 with velocity := { b1.velocity with x := avg + nv1 * b1.bounce.x } }
          let b2 := { b2 with velocity := { b2.velocity with x := avg + nv2 * b2.bounce.x } }
          (true, b1, b2)
        else if !b1.immovable then
          let b1 := { b1 with position := { b1.position with x := b1.position.x - ov } }
          let b1 := { b1 with velocity := { b1.velocity with x := v2 - v1 * b1.bounce.x } }
          (true, b1, b2)
        else
          let b2 := { b2 with position := { b2.position with x := b2.position.x + ov } }
          let b2 := { b2 with velocity := { b2.velocity with x := v1 - v2 * b2.bounce.x } }
          (true, b1, b2)
    else (false, b1, b2)
  else (false, body1, body2)

/-- Arcade.separateY, structurally identical to separateX on the y axis. -/
def separateY (sqrtFn : ℚ → ℚ) (w : ArcadeWorld) (body1 body2 : Body)
    (overlapOnly : Bool) : Bool × Body × Body :=
  if body1.immovable && body2.immovable then (false, body1, body2)
  else if intersects body1 body2 then
    let maxOverlap := body1.deltaAbsY + body2.deltaAbsY + w.overlapBias
    let step :
        ℚ × Body × Body :=
      if body1.deltaY = 0 ∧ body2.deltaY = 0 then
        (0, { body1 with embedded := true }, { body2 with embedded := true })
      else if body1.deltaY > body2.deltaY then
        let ov := body1.frontY - body2.y
        if ov > maxOverlap ∨ body1.checkCollision.frontY = false ∨
            body2.checkCollision.backY = false then
          (0, body1, body2)
        else
          (ov,
           { body1 with touching := { body1.touching with noneF := false, frontY := true } },
           { body2 with touching := { body2.touching with noneF := false, backY := true } })
      else if body1.deltaY < body2.deltaY then
        let ov := body1.y - body2.widthY - body2.y
        if -ov > maxOverlap ∨ body1.checkCollision.backY = false ∨
            body2.checkCollision.frontY = false then
          (0, body1, body2)
        else
          (ov,
           { body1 with touching := { body1.touching with noneF := false, backY := true } },
           { body2 with touching := { body2.touching with noneF := false, frontY := true } })
      else (0, body1, body2)
    let ov := step.1
    let b1 := step.2.1
    let b2 := step.2.2
    if ov ≠ 0 then
      let b1 := { b1 with overlapY := ov }
      let b2 := { b2 with overlapY := ov }
      if overlapOnly || b1.customSeparateY || b2.customSeparateY then (true, b1, b2)
      else
        let v1 := b1.velocity.y
        let v2 := b2.velocity.y
        if !b1.immovable && !b2.immovable then
          let ov2 := ov * (1/2)
          let b1 := { b1 with position := { b1.position with y := b1.position.y - ov2 } }
          let b2 := { b2 with position := { b2.position with y := b2.position.y + ov2 } }
          let nv1 := sqrtFn ((v2 * v2 * b2.mass) / b1.mass) * (if v2 > 0 then 1 else -1)
          let nv2 := sqrtFn ((v1 * v1 * b1.mass) / b2.mass) * (if v1 > 0 then 1 else -1)
          let avg := (nv1 + nv2) * (1/2)
          let nv1 := nv1 - avg
          let nv2 := nv2 - avg
          let b1 := { b1 with velocity := { b1.velocity with y := avg + nv1 * b1.bounce.y } }
          let b2 := { b2 with velocity := { b2.velocity with y := avg + nv2 * b2.bounce.y } }
          (true, b1, b2)
        else if !b1.immovable then
          let b1 := { b1 with position := { b1.position with y := b1.position.y - ov } }
          let b1 := { b1 with velocity := { b1.velocity with y := v2 - v1 * b1.bounce.y } }
          (true, b1, b2)
        else
          let b2 := { b2 with position := { b2.position with y := b2.position.y + ov } }
          let b2 := { b2 with velocity := { b2.velocity with y := v1 - v2 * b2.bounce.y } }
          (true, b1, b2)
    else (false, b1, b2)
  else (false, body1, body2)

/-- Arcade.separateZ.  Note the source tests body1.customSeparateY (not
customSeparateZ) in the custom-separation guard, and carries a rider along
with a moving platform in the immovable cases. -/
def separateZ (sqrtFn : ℚ → ℚ) (w : ArcadeWorld) (body1 body2 : Body)
    (overlapOnly : Bool) : Bool × Body × Body :=
  if body1.immovable && body2.immovable then (false, body1, body2)
  else if intersects body1 body2 then
    let maxOverlap := body1.deltaAbsZ + body2.deltaAbsZ + w.overlapBias
    let step :
        ℚ × Body × Body :=
      if body1.deltaZ = 0 ∧ body2.deltaZ = 0 then
        (0, { body1 with embedded := true }, { body2 with embedded := true })
      else if body1.deltaZ > body2.deltaZ then
        let ov := body1.top - body2.z
        if ov > maxOverlap ∨ body1.checkCollision.down = false ∨
            body2.checkCollision.up = false then
          (0, body1, body2)
        else
          (ov,
           { body1 with touching := { body1.touching with noneF := false, down := true } },
           { body2 with touching := { body2.touching with noneF := false, up := true } })
      else if body1.deltaZ < body2.deltaZ then
        let ov := body1.z - body2.top
        if -ov > maxOverlap ∨ body1.checkCollision.up = false ∨
            body2.checkCollision.down = false then
          (0, body1, body2)
        else
          (ov,
           { body1 with touching := { body1.touching with noneF := false, up := true } },
           { body2 with touching := { body2.touching with noneF := false, down := true } })
      else (0, body1, body2)
    let ov := step.1
    let b1 := step.2.1
    let b2 := step.2.2
    if ov ≠ 0 then
      let b1 := { b1 with overlapZ := ov }
      let b2 := { b2 with overlapZ := ov }
      if overlapOnly || b1.customSeparateY || b2.customSeparateZ then (true, b1, b2)
      else
        let v1 := b1.velocity.z
        let v2 := b2.velocity.z
        if !b1.immovable && !b2.immovable then
          let ov2 := ov * (1/2)
          let b1 := { b1 with position := { b1.position with z := b1.position.z - ov2 } }
          let b2 := { b2 with position := { b2.position with z := b2.position.z + ov2 } }
          let nv1 := sqrtFn ((v2 * v2 * b2.mass) / b1.mass) * (if v2 > 0 then 1 else -1)
          let nv2 := sqrtFn ((v1 * v1 * b1.mass) / b2.mass) * (if v1 > 0 then 1 else -1)
          let avg := (nv1 + nv2) * (1/2)
          let nv1 := nv1 - avg
          let nv2 := nv2 - avg
          let b1 := { b1 with velocity := { b1.velocity with z := avg + nv1 * b1.bounce.z } }
          let b2 := { b2 with velocity := { b2.velocity with z := avg + nv2 * b2.bounce.z } }
          (true, b1, b2)
        else if !b1.immovable then
          let b1 := { b1 with position := { b1.position with z := b1.position.z - ov } }
          let b1 := { b1 with velocity := { b1.velocity with z := v2 - v1 * b1.bounce.z } }
          let b1 :=
            if b2.moves then
              { b1 with position :=
                  { b1.position with
                      x := b1.position.x + (b2.position.x - b2.prev.x),
                      y := b1.position.y + (b2.position.y - b2.prev.y) } }
            else b1
          (true, b1, b2)
        else
          let b2 := { b2 with position := { b2.position with z := b2.position.z + ov } }
          let b2 := { b2 with velocity := { b2.velocity with z := v1 - v2 * b2.bounce.z } }
          let b2 :=
            if b1.moves then
              { b2 with position :=
                  { b2.position with
                      x := b2.position.x + (b1.position.x - b1.prev.x),
                      y := b2.position.y + (b1.position.y - b1.prev.y) } }
            else b2
          (true, b1, b2)
    else (false, b1, b2)
  else (false, body1, body2)

/-- Result of the process callback: absent, or a pure predicate on the two
bodies (the source passes the owning sprites; the callback is modelled as a
pure function of the bodies). -/
def processPasses (process : Option (Body → Body → Bool)) (b1 b2 : Body) : Bool :=
  match process with
  | Option.none => true
  | Option.some f => f b1 b2

/-- Arcade.separate: the core separation routine, with the short-circuiting
axis order from the source (X,Y,Z when forceXY or gravity favours the
horizontal axes, otherwise Z,X,Y). -/
def separate (sqrtFn : ℚ → ℚ) (w : ArcadeWorld) (body1 body2 : Body)
    (process : Option (Body → Body → Bool)) (overlapOnly : Bool) :
    Bool × Body × Body :=
  if !body1.enable || !body2.enable || !(intersects body1 body2) then
    (false, body1, body2)
  else if processPasses process body1 body2 = false then (false, body1, body2)
  else if overlapOnly then (true, body1, body2)
  else if w.forceXY ∨
      |w.gravity.z + body1.gravity.z| < |w.gravity.x + body1.gravity.x| ∨
      |w.gravity.z + body1.gravity.z| < |w.gravity.y + body1.gravity.y| then
    let r1 := separateX sqrtFn w body1 body2 overlapOnly
    if r1.1 then r1
    else
      let r2 := separateY sqrtFn w r1.2.1 r1.2.2 overlapOnly
      if r2.1 then r2
      else separateZ sqrtFn w r2.2.1 r2.2.2 overlapOnly
  else
    let r1 := separateZ sqrtFn w body1 body2 overlapOnly
    if r1.1 then r1
    else
      let r2 := separateX sqrtFn w r1.2.1 r1.2.2 overlapOnly
      if r2.1 then r2
      else separateY sqrtFn w r2.2.1 r2.2.2 overlapOnly

end Arcade

/-! ## Octree (Octree.js)

A node holds maxObjects / maxLevels / level, precomputed bounds, an object
list and an optional block of eight children (the source checks
nodes[0] != null).  The source insert routine recurses without an explicit
bound; the embedding carries a fuel argument, and the fallback at fuel zero
simply appends the object to the current node (for sufficiently large fuel
the fallback is never reached, and every theorem below quantifies over all
fuel values). -/

/-- Bounds record built by Octree.reset: rounded origin, raw sizes, floored
half sizes and midplane coordinates. -/
structure OctBounds where
  x : ℚ
  y : ℚ
  z : ℚ
  widthX : ℚ
  widthY : ℚ
  height : ℚ
  subWidthX : ℚ
  subWidthY : ℚ
  subHeight : ℚ
  frontX : ℚ
  frontY : ℚ
  top : ℚ
deriving DecidableEq, Repr

def mkOctBounds (x y z widthX widthY height : ℚ) : OctBounds :=
  { x := jsRound x
    y := jsRound y
    z := jsRound z
    widthX := widthX
    widthY := widthY
    height := height
    subWidthX := jsFloor (widthX * (1/2))
    subWidthY := jsFloor (widthY * (1/2))
    subHeight := jsFloor (height * (1/2))
    frontX := jsRound x + jsFloor (widthX * (1/2))
    frontY := jsRound y + jsFloor (widthY * (1/2))
    top := jsRound z + jsFloor (height * (1/2)) }

/-- JS default via logical or: v or d, where 0 is falsy. -/
def jsOrN (v d : ℕ) : ℕ := if v = 0 then d else v

inductive Octree : Type where
  | node (maxObjects maxLevels level : ℕ) (bounds : OctBounds) (objects : List Cube)
      (children : Option (Octree × Octree × Octree × Octree ×
        Octree × Octree × Octree × Octree))

/-- The Octree constructor combined with reset (defaults 10 and 4 applied to
falsy maxObjects / maxLevels; a missing level argument is 0). -/
def newOctree (x y z widthX widthY height : ℚ) (maxObjects maxLevels level : ℕ) : Octree :=
  Octree.node (jsOrN maxObjects 10) (jsOrN maxLevels 4) level
    (mkOctBounds x y z widthX widthY height) [] Option.none

/-- Octree.getIndex: -1 when the cube straddles a midplane, otherwise the
octant index 0-7, with the exact strict comparisons of the source. -/
def getIndex (b : OctBounds) (c : Cube) : Int :=
  if c.x < b.frontX ∧ c.frontX < b.frontX then
    if c.y < b.frontY ∧ c.frontY < b.frontY then
      if c.z < b.top ∧ c.top < b.top then 0
      else if c.z > b.top then 4
      else -1
    else if c.y > b.frontY then
      if c.z < b.top ∧ c.top < b.top then 2
      else if c.z > b.top then 6
      else -1
    else -1
  else if c.x > b.frontX then
    if c.y < b.frontY ∧ c.frontY < b.frontY then
      if c.z < b.top ∧ c.top < b.top then 1
      else if c.z > b.top then 5
      else -1
    else if c.y > b.frontY then
      if c.z < b.top ∧ c.top < b.top then 3
      else if c.z > b.top then 7
      else -1
    else -1
  else -1

/-- Octree.split: eight fresh children.  The source passes only eight
arguments to the nine-parameter constructor, so the child constructor
receives maxObjects := parent.maxLevels, maxLevels := parent.level + 1 and
level := undefined (hence 0). -/
def Octree.split : Octree → Octree
  | Octree.node mo ml lvl b objs _ =>
    Octree.node mo ml lvl b objs (Option.some
      (newOctree b.x b.y b.z b.subWidthX b.subWidthY b.subHeight ml (lvl + 1) 0,
       newOctree b.frontX b.y b.z b.subWidthX b.subWidthY b.subHeight ml (lvl + 1) 0,
       newOctree b.x b.frontY b.z b.subWidthX b.subWidthY b.subHeight ml (lvl + 1) 0,
       newOctree b.frontX b.frontY b.z b.subWidthX b.subWidthY b.subHeight ml (lvl + 1) 0,
       newOctree b.x b.y b.top b.subWidthX b.subWidthY b.subHeight ml (lvl + 1) 0,
       newOctree b.frontX b.y b.top b.subWidthX b.subWidthY b.subHeight ml (lvl + 1) 0,
       newOctree b.x b.frontY b.top b.subWidthX b.subWidthY b.subHeight ml (lvl + 1) 0,
       newOctree b.frontX b.frontY b.top b.subWidthX b.subWidthY b.subHeight ml (lvl + 1) 0))

/-- Append an object to a node's own list (objects.push). -/
def Octree.pushObj : Octree → Cube → Octree
  | Octree.node mo ml lvl b objs ch, c => Octree.node mo ml lvl b (objs ++ [c]) ch

/-- Select the child for an octant index (0-7); -1 or anything else gives
nothing. -/
def Octree.childAt
    (cs : Octree × Octree × Octree × Octree × Octree × Octree × Octree × Octree)
    (i : Int) : Option Octree :=
  if i = 0 then Option.some cs.1
  else if i = 1 then Option.some cs.2.1
  else if i = 2 then Option.some cs.2.2.1
  else if i = 3 then Option.some cs.2.2.2.1
  else if i = 4 then Option.some cs.2.2.2.2.1
  else if i = 5 then Option.some cs.2.2.2.2.2.1
  else if i = 6 then Option.some cs.2.2.2.2.2.2.1
  else if i = 7 then Option.some cs.2.2.2.2.2.2.2
  else Option.none

set_option maxHeartbeats 1000000

mutual

/-- Octree.insert: route into the single containing child when children
exist, otherwise push and, on overflow below the level limit, split and
redistribute. -/
def Octree.insert : ℕ → Octree → Cube → Octree
  | 0, t, c => t.pushObj c
  | (fuel + 1), Octree.node mo ml lvl b objs Option.none, c =>
      Octree.insertPush fuel mo ml lvl b objs Option.none c
  | (fuel + 1), Octree.node mo ml lvl b objs (Option.some cs), c =>
      let idx := getIndex b c
      if idx = -1 then Octree.insertPush fuel mo ml lvl b objs (Option.some cs) c
      else Octree.node mo ml lvl b objs (Option.some (Octree.insChild fuel cs idx c))
termination_by fuel t c => (fuel, 0, 0)

/-- Insert into the child at the given octant index, leaving the others
unchanged. -/
def Octree.insChild (fuel : ℕ)
    (cs : Octree × Octree × Octree × Octree × Octree × Octree × Octree × Octree)
    (i : Int) (c : Cube) :
    Octree × Octree × Octree × Octree × Octree × Octree × Octree × Octree :=
  if i = 0 then (Octree.insert fuel cs.1 c, cs.2.1, cs.2.2.1, cs.2.2.2.1,
    cs.2.2.2.2.1, cs.2.2.2.2.2.1, cs.2.2.2.2.2.2.1, cs.2.2.2.2.2.2.2)
  else if i = 1 then (cs.1, Octree.insert fuel cs.2.1 c, cs.2.2.1, cs.2.2.2.1,
    cs.2.2.2.2.1, cs.2.2.2.2.2.1, cs.2.2.2.2.2.2.1, cs.2.2.2.2.2.2.2)
  else if i = 2 then (cs.1, cs.2.1, Octree.insert fuel cs.2.2.1 c, cs.2.2.2.1,
    cs.2.2.2.2.1, cs.2.2.2.2.2.1, cs.2.2.2.2.2.2.1, cs.2.2.2.2.2.2.2)
  else if i = 3 then (cs.1, cs.2.1, cs.2.2.1, Octree.insert fuel cs.2.2.2.1 c,
    cs.2.2.2.2.1, cs.2.2.2.2.2.1, cs.2.2.2.2.2.2.1, cs.2.2.2.2.2.2.2)
  else if i = 4 then (cs.1, cs.2.1, cs.2.2.1, cs.2.2.2.1,
    Octree.insert fuel cs.2.2.2.2.1 c, cs.2.2.2.2.2.1, cs.2.2.2.2.2.2.1, cs.2.2.2.2.2.2.2)
  else if i = 5 then (cs.1, cs.2.1, cs.2.2.1, cs.2.2.2.1,
    cs.2.2.2.2.1, Octree.insert fuel cs.2.2.2.2.2.1 c, cs.2.2.2.2.2.2.1, cs.2.2.2.2.2.2.2)
  else if i = 6 then (cs.1, cs.2.1, cs.2.2.1, cs.2.2.2.1,
    cs.2.2.2.2.1, cs.2.2.2.2.2.1, Octree.insert fuel cs.2.2.2.2.2.2.1 c, cs.2.2.2.2.2.2.2)
  else if i = 7 then (cs.1, cs.2.1, cs.2.2.1, cs.2.2.2.1,
    cs.2.2.2.2.1, cs.2.2.2.2.2.1, cs.2.2.2.2.2.2.1, Octree.insert fuel cs.2.2.2.2.2.2.2 c)
  else cs
termination_by (fuel, 1, 0)

/-- The push half of insert: append, then on overflow split (if needed) and
run the redistribution loop over the whole object list. -/
def Octree.insertPush (fuel : ℕ) (mo ml lvl : ℕ) (b : OctBounds) (objs : List Cube)
    (children : Option (Octree × Octree × Octree × Octree ×
      Octree × Octree × Octree × Octree)) (c : Cube) : Octree :=
  let objs2 := objs ++ [c]
  if objs2.length > mo ∧ lvl < ml then
    let cs :=
      match children with
      | Option.some cs => cs
      | Option.none =>
        (newOctree b.x b.y b.z b.subWidthX b.subWidthY b.subHeight ml (lvl + 1) 0,
         newOctree b.frontX b.y b.z b.subWidthX b.subWidthY b.subHeight ml (lvl + 1) 0,
         newOctree b.x b.frontY b.z b.subWidthX b.subWidthY b.subHeight ml (lvl + 1) 0,
         newOctree b.frontX b.frontY b.z b.subWidthX b.subWidthY b.subHeight ml (lvl + 1) 0,
         newOctree b.x b.y b.top b.subWidthX b.subWidthY b.subHeight ml (lvl + 1) 0,
         newOctree b.frontX b.y b.top b.subWidthX b.subWidthY b.subHeight ml (lvl + 1) 0,
         newOctree b.x b.frontY b.top b.subWidthX b.subWidthY b.subHeight ml (lvl + 1) 0,
         newOctree b.frontX b.frontY b.top b.subWidthX b.subWidthY b.subHeight ml (lvl + 1) 0)
    let r := Octree.redistLoop fuel b cs objs2 []
    Octree.node mo ml lvl b r.2 (Option.some r.1)
  else Octree.node mo ml lvl b objs2 children
termination_by (fuel, 3, 0)

/-- The while loop of insert: move every object that fits an octant into
that child, keeping straddlers in order. -/
def Octree.redistLoop (fuel : ℕ) (b : OctBounds)
    (cs : Octree × Octree × Octree × Octree × Octree × Octree × Octree × Octree)
    (pending kept : List Cube) :
    (Octree × Octree × Octree × Octree × Octree × Octree × Octree × Octree) × List Cube :=
  match pending with
  | [] => (cs, kept.reverse)
  | c :: rest =>
    let idx := getIndex b c
    if idx = -1 then Octree.redistLoop fuel b cs rest (kept ++ [c])
    else Octree.redistLoop fuel b (Octree.insChild fuel cs idx c) rest kept
termination_by (fuel, 2, pending.length)

end

/-- Octree.retrieve: this node's objects plus either the single child that
fully contains the query or all eight children. -/
def Octree.retrieve : Octree → Cube → List Cube
  | Octree.node _ _ _ _ objs Option.none, _ => objs
  | Octree.node _ _ _ b objs (Option.some (c0, c1, c2, c3, c4, c5, c6, c7)), q =>
    let idx := getIndex b q
    if idx ≠ -1 then
      objs ++
        (if idx = 0 then Octree.retrieve c0 q
         else if idx = 1 then Octree.retrieve c1 q
         else if idx = 2 then Octree.retrieve c2 q
         else if idx = 3 then Octree.retrieve c3 q
         else if idx = 4 then Octree.retrieve c4 q
         else if idx = 5 then Octree.retrieve c5 q
         else if idx = 6 then Octree.retrieve c6 q
         else if idx = 7 then Octree.retrieve c7 q
         else [])
    else
      objs ++ Octree.retrieve c0 q ++ Octree.retrieve c1 q ++ Octree.retrieve c2 q ++
        Octree.retrieve c3 q ++ Octree.retrieve c4 q ++ Octree.retrieve c5 q ++
        Octree.retrieve c6 q ++ Octree.retrieve c7 q

/-- Insert a whole collection in order (Octree.populate over a group). -/
def Octree.insertAll (fuel : ℕ) (t : Octree) (boxes : List Cube) : Octree :=
  boxes.foldl (fun acc c => Octree.insert fuel acc c) t

def Octree.maxObjects : Octree → ℕ
  | Octree.node mo _ _ _ _ _ => mo

def Octree.maxLevels : Octree → ℕ
  | Octree.node _ ml _ _ _ _ => ml

def Octree.level : Octree → ℕ
  | Octree.node _ _ lvl _ _ _ => lvl

def Octree.childList : Octree → List Octree
  | Octree.node _ _ _ _ _ Option.none => []
  | Octree.node _ _ _ _ _ (Option.some (c0, c1, c2, c3, c4, c5, c6, c7)) =>
    [c0, c1, c2, c3, c4, c5, c6, c7]

/-- Where an object can live inside a tree: in this node's list, or in the
child selected by its own octant index.  The object is a parameter: it is
the same box all the way down the path. -/
inductive Stored (k : Cube) : Octree → Prop where
  | here {mo ml lvl : ℕ} {b : OctBounds} {objs : List Cube} {ch} :
      k ∈ objs → Stored k (Octree.node mo ml lvl b objs ch)
  | inChild {mo ml lvl : ℕ} {b : OctBounds} {objs : List Cube} {cs} {t : Octree} :
      Octree.childAt cs (getIndex b k) = Option.some t → Stored k t →
      Stored k (Octree.node mo ml lvl b objs (Option.some cs))

/-- Componentwise containment of box k inside query box q. -/
def containsBox (q k : Cube) : Prop :=
  q.x ≤ k.x ∧ k.frontX ≤ q.frontX ∧ q.y ≤ k.y ∧ k.frontY ≤ q.frontY ∧
    q.z ≤ k.z ∧ k.top ≤ q.top

/-- Nonnegative extents (every physics body satisfies this). -/
def nonnegCube (k : Cube) : Prop := 0 ≤ k.widthX ∧ 0 ≤ k.widthY ∧ 0 ≤ k.height

/-! ### Octree retrieval completeness -/

lemma getIndex_range (b : OctBounds) (c : Cube) :
    getIndex b c = -1 ∨ (0 ≤ getIndex b c ∧ getIndex b c ≤ 7) := by
  unfold getIndex
  split_ifs <;> norm_num

/-- If the query box fully contains k (componentwise) and fits one octant,
then k fits the same octant: routing decisions agree. -/
lemma getIndex_transfer (b : OctBounds) (q k : Cube) (hc : containsBox q k)
    (hk : nonnegCube k) (h : getIndex b q ≠ -1) : getIndex b k = getIndex b q := by
  obtain ⟨h1, h2, h3, h4, h5, h6⟩ := hc
  obtain ⟨w1, w2, w3⟩ := hk
  have kfx : k.x ≤ k.frontX := by simp only [Cube.frontX]; linarith
  have kfy : k.y ≤ k.frontY := by simp only [Cube.frontY]; linarith
  have kfz : k.z ≤ k.top := by simp only [Cube.top]; linarith
  have tPx : q.x < b.frontX ∧ q.frontX < b.frontX →
      k.x < b.frontX ∧ k.frontX < b.frontX := by
    rintro ⟨a1, a2⟩
    constructor <;> linarith
  have tRx : q.x > b.frontX → k.x > b.frontX := by intro a; linarith
  have tPy : q.y < b.frontY ∧ q.frontY < b.frontY →
      k.y < b.frontY ∧ k.frontY < b.frontY := by
    rintro ⟨a1, a2⟩
    constructor <;> linarith
  have tRy : q.y > b.frontY → k.y > b.frontY := by intro a; linarith
  have tPz : q.z < b.top ∧ q.top < b.top →
      k.z < b.top ∧ k.top < b.top := by
    rintro ⟨a1, a2⟩
    constructor <;> linarith
  have tRz : q.z > b.top → k.z > b.top := by intro a; linarith
  have nPx : ∀ c : Cube, c.x > b.frontX → ¬(c.x < b.frontX ∧ c.frontX < b.frontX) := by
    rintro c a ⟨a1, _⟩
    linarith
  have nPy : ∀ c : Cube, c.y > b.frontY → ¬(c.y < b.frontY ∧ c.frontY < b.frontY) := by
    rintro c a ⟨a1, _⟩
    linarith
  have nPz : ∀ c : Cube, c.z > b.top → ¬(c.z < b.top ∧ c.top < b.top) := by
    rintro c a ⟨a1, _⟩
    linarith
  by_cases px : q.x < b.frontX ∧ q.frontX < b.frontX
  · by_cases py : q.y < b.frontY ∧ q.frontY < b.frontY
    · by_cases pz : q.z < b.top ∧ q.top < b.top
      · have hq : getIndex b q = 0 := by
          unfold getIndex
          rw [if_pos px, if_pos py, if_pos pz]
        have hk2 : getIndex b k = 0 := by
          unfold getIndex
          rw [if_pos (tPx px), if_pos (tPy py), if_pos (tPz pz)]
        rw [hq, hk2]
      · by_cases rz : q.z > b.top
        · have hq : getIndex b q = 4 := by
            unfold getIndex
            rw [if_pos px, if_pos py, if_neg pz, if_pos rz]
          have hk2 : getIndex b k = 4 := by
            unfold getIndex
            rw [if_pos (tPx px), if_pos (tPy py), if_neg (nPz k (tRz rz)), if_pos (tRz rz)]
          rw [hq, hk2]
        · exfalso
          apply h
          unfold getIndex
          rw [if_pos px, if_pos py, if_neg pz, if_neg rz]
    · by_cases ry : q.y > b.frontY
      · by_cases pz : q.z < b.top ∧ q.top < b.top
        · have hq : getIndex b q = 2 := by
            unfold getIndex
            rw [if_pos px, if_neg py, if_pos ry, if_pos pz]
          have hk2 : getIndex b k = 2 := by
            unfold getIndex
            rw [if_pos (tPx px), if_neg (nPy k (tRy ry)), if_pos (tRy ry), if_pos (tPz pz)]
          rw [hq, hk2]
        · by_cases rz : q.z > b.top
          · have hq : getIndex b q = 6 := by
              unfold getIndex
              rw [if_pos px, if_neg py, if_pos ry, if_neg pz, if_pos rz]
            have hk2 : getIndex b k = 6 := by
              unfold getIndex
              rw [if_pos (tPx px), if_neg (nPy k (tRy ry)), if_pos (tRy ry),
                if_neg (nPz k (tRz rz)), if_pos (tRz rz)]
            rw [hq, hk2]
          · exfalso
            apply h
            unfold getIndex
            rw [if_pos px, if_neg py, if_pos ry, if_neg pz, if_neg rz]
      · exfalso
        apply h
        unfold getIndex
        rw [if_pos px, if_neg py, if_neg ry]
  · by_cases rx : q.x > b.frontX
    · by_cases py : q.y < b.frontY ∧ q.frontY < b.frontY
      · by_cases pz : q.z < b.top ∧ q.top < b.top
        · have hq : getIndex b q = 1 := by
            unfold getIndex
            rw [if_neg px, if_pos rx, if_pos py, if_pos pz]
          have hk2 : getIndex b k = 1 := by
            unfold getIndex
            rw [if_neg (nPx k (tRx rx)), if_pos (tRx rx), if_pos (tPy py), if_pos (tPz pz)]
          rw [hq, hk2]
        · by_cases rz : q.z > b.top
          · have hq : getIndex b q = 5 := by
              unfold getIndex
              rw [if_neg px, if_pos rx, if_pos py, if_neg pz, if_pos rz]
            have hk2 : getIndex b k = 5 := by
              unfold getIndex
              rw [if_neg (nPx k (tRx rx)), if_pos (tRx rx), if_pos (tPy py),
                if_neg (nPz k (tRz rz)), if_pos (tRz rz)]
            rw [hq, hk2]
          · exfalso
            apply h
            unfold getIndex
            rw [if_neg px, if_pos rx, if_pos py, if_neg pz, if_neg rz]
      · by_cases ry : q.y > b.frontY
        · by_cases pz : q.z < b.top ∧ q.top < b.top
          · have hq : getIndex b q = 3 := by
              unfold getIndex
              rw [if_neg px, if_pos rx, if_neg py, if_pos ry, if_pos pz]
            have hk2 : getIndex b k = 3 := by
              unfold getIndex
              rw [if_neg (nPx k (tRx rx)), if_pos (tRx rx), if_neg (nPy k (tRy ry)),
                if_pos (tRy ry), if_pos (tPz pz)]
            rw [hq, hk2]
          · by_cases rz : q.z > b.top
            · have hq : getIndex b q = 7 := by
                unfold getIndex
                rw [if_neg px, if_pos rx, if_neg py, if_pos ry, if_neg pz, if_pos rz]
              have hk2 : getIndex b k = 7 := by
                unfold getIndex
                rw [if_neg (nPx k (tRx rx)), if_pos (tRx rx), if_neg (nPy k (tRy ry)),
                  if_pos (tRy ry), if_neg (nPz k (tRz rz)), if_pos (tRz rz)]
              rw [hq, hk2]
            · exfalso
              apply h
              unfold getIndex
              rw [if_neg px, if_pos rx, if_neg py, if_pos ry, if_neg pz, if_neg rz]
        · exfalso
          apply h
          unfold getIndex
          rw [if_neg px, if_pos rx, if_neg py, if_neg ry]
    · exfalso
      apply h
      unfold getIndex
      rw [if_neg px, if_neg rx]

lemma childAt_some_range (cs : Octree × Octree × Octree × Octree ×
    Octree × Octree × Octree × Octree) (i : Int) (t : Octree)
    (h : Octree.childAt cs i = Option.some t) : 0 ≤ i ∧ i ≤ 7 := by
  unfold Octree.childAt at h
  split_ifs at h <;> omega

lemma childAt_insChild_eq (fuel : ℕ) (cs : Octree × Octree × Octree × Octree ×
    Octree × Octree × Octree × Octree) (i : Int) (c : Cube)
    (h0 : 0 ≤ i) (h7 : i ≤ 7) :
    ∃ t, Octree.childAt cs i = Option.some t ∧
      Octree.childAt (Octree.insChild fuel cs i c) i =
        Option.some (Octree.insert fuel t c) := by
  unfold Octree.childAt Octree.insChild
  interval_cases i <;> norm_num

lemma childAt_insChild_ne (fuel : ℕ) (cs : Octree × Octree × Octree × Octree ×
    Octree × Octree × Octree × Octree) (i j : Int) (c : Cube) (hij : j ≠ i) :
    Octree.childAt (Octree.insChild fuel cs i c) j = Octree.childAt cs j := by
  by_cases hjr : 0 ≤ j ∧ j ≤ 7
  · obtain ⟨hj0, hj7⟩ := hjr
    interval_cases j <;>
      (simp only [Octree.childAt]; norm_num;
       unfold Octree.insChild;
       split_ifs <;> first | rfl | omega)
  · have n0 : ¬(j = 0) := by omega
    have n1 : ¬(j = 1) := by omega
    have n2 : ¬(j = 2) := by omega
    have n3 : ¬(j = 3) := by omega
    have n4 : ¬(j = 4) := by omega
    have n5 : ¬(j = 5) := by omega
    have n6 : ¬(j = 6) := by omega
    have n7 : ¬(j = 7) := by omega
    unfold Octree.childAt
    simp only [if_neg n0, if_neg n1, if_neg n2, if_neg n3, if_neg n4, if_neg n5,
      if_neg n6, if_neg n7]

lemma pushObj_stored_self (t : Octree) (c : Cube) : Stored c (t.pushObj c) := by
  cases t with
  | node mo ml lvl b objs ch => exact Stored.here (by simp [Octree.pushObj])

lemma pushObj_stored_mono (t : Octree) (c k : Cube) (h : Stored k t) :
    Stored k (t.pushObj c) := by
  cases h with
  | here hm =>
    exact Stored.here (List.mem_append.mpr (Or.inl hm))
  | inChild hch hst => exact Stored.inChild hch hst

/-- Specification of the redistribution loop, assuming the two insertion
facts at the inner fuel level. -/
lemma redistLoop_spec (fuel : ℕ) (b : OctBounds)
    (H1 : ∀ t c, Stored c (Octree.insert fuel t c))
    (H2 : ∀ t c k, Stored k t → Stored k (Octree.insert fuel t c))
    (pending : List Cube) :
    ∀ cs kept,
      (∀ k, k ∈ pending →
        k ∈ (Octree.redistLoop fuel b cs pending kept).2 ∨
        ∃ t, Octree.childAt (Octree.redistLoop fuel b cs pending kept).1 (getIndex b k)
            = Option.some t ∧ Stored k t) ∧
      (∀ k t, Octree.childAt cs (getIndex b k) = Option.some t → Stored k t →
        ∃ u, Octree.childAt (Octree.redistLoop fuel b cs pending kept).1 (getIndex b k)
            = Option.some u ∧ Stored k u) ∧
      (∀ k, k ∈ kept → k ∈ (Octree.redistLoop fuel b cs pending kept).2) := by
  induction pending with
  | nil =>
    intro cs kept
    refine ⟨by simp, ?_, ?_⟩
    · intro k t hch hst
      exact ⟨t, by simpa [Octree.redistLoop] using hch, hst⟩
    · intro k hk
      simpa [Octree.redistLoop] using hk
  | cons c rest IH =>
    intro cs kept
    by_cases hidx : getIndex b c = -1
    · have hred : Octree.redistLoop fuel b cs (c :: rest) kept =
          Octree.redistLoop fuel b cs rest (kept ++ [c]) := by
        simp [Octree.redistLoop, hidx]
      obtain ⟨ih1, ih2, ih3⟩ := IH cs (kept ++ [c])
      rw [hred]
      refine ⟨?_, ih2, ?_⟩
      · intro k hk
        rcases List.mem_cons.mp hk with hk | hk
        · subst hk
          exact Or.inl (ih3 k (by simp))
        · exact ih1 k hk
      · intro k hk
        exact ih3 k (by simp [hk])
    · have h07 : 0 ≤ getIndex b c ∧ getIndex b c ≤ 7 := by
        rcases getIndex_range b c with hm | hm
        · exact absurd hm hidx
        · exact hm
      have hred : Octree.redistLoop fuel b cs (c :: rest) kept =
          Octree.redistLoop fuel b (Octree.insChild fuel cs (getIndex b c) c) rest kept := by
        simp [Octree.redistLoop, hidx]
      obtain ⟨t0, hcs, hcs2⟩ := childAt_insChild_eq fuel cs (getIndex b c) c h07.1 h07.2
      obtain ⟨ih1, ih2, ih3⟩ := IH (Octree.insChild fuel cs (getIndex b c) c) kept
      rw [hred]
      refine ⟨?_, ?_, ih3⟩
      · intro k hk
        rcases List.mem_cons.mp hk with hk | hk
        · subst hk
          rcases ih2 k (Octree.insert fuel t0 k) hcs2 (H1 t0 k) with ⟨u, hu1, hu2⟩
          exact Or.inr ⟨u, hu1, hu2⟩
        · exact ih1 k hk
      · intro k t hch hst
        by_cases hkc : getIndex b k = getIndex b c
        · rw [hkc, hcs] at hch
          have ht : t0 = t := Option.some.inj hch
          subst ht
          rcases ih2 k (Octree.insert fuel t0 c) (by rw [hkc]; exact hcs2)
              (H2 t0 c k hst) with ⟨u, hu1, hu2⟩
          exact ⟨u, by rw [hkc]; rw [hkc] at hu1; exact hu1, hu2⟩
        · have hne : Octree.childAt (Octree.insChild fuel cs (getIndex b c) c) (getIndex b k)
              = Octree.childAt cs (getIndex b k) :=
            childAt_insChild_ne fuel cs (getIndex b c) (getIndex b k) c hkc
          exact ih2 k t (by rw [hne]; exact hch) hst

/-- Specification of the push-then-maybe-split-and-redistribute path. -/
lemma insertPush_stored (fuel : ℕ) (mo ml lvl : ℕ) (b : OctBounds) (objs : List Cube)
    (children : Option (Octree × Octree × Octree × Octree ×
      Octree × Octree × Octree × Octree)) (c : Cube)
    (H1 : ∀ t c, Stored c (Octree.insert fuel t c))
    (H2 : ∀ t c k, Stored k t → Stored k (Octree.insert fuel t c)) :
    Stored c (Octree.insertPush fuel mo ml lvl b objs children c) ∧
    (∀ k, Stored k (Octree.node mo ml lvl b objs children) →
      Stored k (Octree.insertPush fuel mo ml lvl b objs children c)) := by
  rw [Octree.insertPush.eq_def]
  by_cases hover : (objs ++ [c]).length > mo ∧ lvl < ml
  · rcases children with _ | cs
    · -- no children: split into fresh octants, then redistribute
      simp only [if_pos hover]
      obtain ⟨r1, r2, r3⟩ := redistLoop_spec fuel b H1 H2 (objs ++ [c]) _ []
      constructor
      · rcases r1 c (by simp) with hkeep | ⟨t, ht1, ht2⟩
        · exact Stored.here hkeep
        · exact Stored.inChild ht1 ht2
      · intro k hst
        cases hst with
        | here hm =>
          rcases r1 k (by simp [hm]) with hkeep | ⟨t, ht1, ht2⟩
          · exact Stored.here hkeep
          · exact Stored.inChild ht1 ht2
    · simp only [if_pos hover]
      obtain ⟨r1, r2, r3⟩ := redistLoop_spec fuel b H1 H2 (objs ++ [c]) cs []
      constructor
      · rcases r1 c (by simp) with hkeep | ⟨t, ht1, ht2⟩
        · exact Stored.here hkeep
        · exact Stored.inChild ht1 ht2
      · intro k hst
        cases hst with
        | here hm =>
          rcases r1 k (by simp [hm]) with hkeep | ⟨t, ht1, ht2⟩
          · exact Stored.here hkeep
          · exact Stored.inChild ht1 ht2
        | inChild hch hst2 =>
          rcases r2 k _ hch hst2 with ⟨u, hu1, hu2⟩
          exact Stored.inChild hu1 hu2
  · simp only [if_neg hover]
    constructor
    · exact Stored.here (by simp)
    · intro k hst
      cases hst with
      | here hm => exact Stored.here (List.mem_append.mpr (Or.inl hm))
      | inChild hch hst2 => exact Stored.inChild hch hst2

/-- Insertion places the new object somewhere on its own routing path and
never loses a previously stored object, for every fuel value. -/
theorem insert_stored_all (fuel : ℕ) :
    (∀ t c, Stored c (Octree.insert fuel t c)) ∧
    (∀ t c k, Stored k t → Stored k (Octree.insert fuel t c)) := by
  induction fuel with
  | zero =>
    constructor
    · intro t c
      simp only [Octree.insert]
      exact pushObj_stored_self t c
    · intro t c k h
      simp only [Octree.insert]
      exact pushObj_stored_mono t c k h
  | succ fuel IH =>
    obtain ⟨IH1, IH2⟩ := IH
    constructor
    · intro t c
      cases t with
      | node mo ml lvl b objs children =>
        rcases children with _ | cs
        · simp only [Octree.insert]
          exact (insertPush_stored fuel mo ml lvl b objs Option.none c IH1 IH2).1
        · by_cases hidx : getIndex b c = -1
          · simp only [Octree.insert]
            rw [if_pos hidx]
            exact (insertPush_stored fuel mo ml lvl b objs (Option.some cs) c IH1 IH2).1
          · have h07 : 0 ≤ getIndex b c ∧ getIndex b c ≤ 7 := by
              rcases getIndex_range b c with hm | hm
              · exact absurd hm hidx
              · exact hm
            obtain ⟨t0, hcs, hcs2⟩ := childAt_insChild_eq fuel cs (getIndex b c) c h07.1 h07.2
            simp only [Octree.insert]
            rw [if_neg hidx]
            exact Stored.inChild hcs2 (IH1 t0 c)
    · intro t c k h
      cases t with
      | node mo ml lvl b objs children =>
        rcases children with _ | cs
        · simp only [Octree.insert]
          exact (insertPush_stored fuel mo ml lvl b objs Option.none c IH1 IH2).2 k h
        · by_cases hidx : getIndex b c = -1
          · simp only [Octree.insert]
            rw [if_pos hidx]
            exact (insertPush_stored fuel mo ml lvl b objs (Option.some cs) c IH1 IH2).2 k h
          · simp only [Octree.insert]
            rw [if_neg hidx]
            cases h with
            | here hm => exact Stored.here hm
            | inChild hch hst =>
              by_cases hkc : getIndex b k = getIndex b c
              · have h07 : 0 ≤ getIndex b c ∧ getIndex b c ≤ 7 := by
                  rcases getIndex_range b c with hm | hm
                  · exact absurd hm hidx
                  · exact hm
                obtain ⟨t0, hcs, hcs2⟩ := childAt_insChild_eq fuel cs (getIndex b c) c h07.1 h07.2
                rw [hkc, hcs] at hch
                have ht : t0 = _ := Option.some.inj hch
                subst ht
                exact Stored.inChild (by rw [hkc]; exact hcs2) (IH2 t0 c k hst)
              · exact Stored.inChild
                  (by rw [childAt_insChild_ne fuel cs (getIndex b c) (getIndex b k) c hkc]
                      exact hch)
                  hst

/-- Whatever is stored on the routing path of k is returned by a retrieve
whose query box contains k. -/
theorem stored_retrieve (t : Octree) (k : Cube) (hst : Stored k t) (q : Cube)
    (hc : containsBox q k) (hk : nonnegCube k) : k ∈ Octree.retrieve t q := by
  induction hst with
  | here hm =>
    rename_i mo ml lvl b objs ch
    rcases ch with _ | ⟨c0, c1, c2, c3, c4, c5, c6, c7⟩
    · simpa [Octree.retrieve] using hm
    · rw [Octree.retrieve]
      split_ifs <;> simp [hm]
  | inChild hch hst IH =>
    rename_i mo ml lvl b objs cs t
    have h07 := childAt_some_range cs (getIndex b k) t hch
    obtain ⟨hbl, hbr⟩ := h07
    obtain ⟨c0, c1, c2, c3, c4, c5, c6, c7⟩ := cs
    rw [Octree.retrieve]
    by_cases hq : getIndex b q = -1
    · rw [if_neg (by simp [hq])]
      unfold Octree.childAt at hch
      split_ifs at hch <;>
        (replace hch := Option.some.inj hch; subst hch;
         simp [List.mem_append, IH])
    · have htr : getIndex b k = getIndex b q := getIndex_transfer b q k hc hk hq
      rw [if_pos hq]
      rw [htr] at hch
      unfold Octree.childAt at hch
      split_ifs at hch with e0 e1 e2 e3 e4 e5 e6 e7 <;>
        (replace hch := Option.some.inj hch; subst hch)
      · rw [if_pos e0]
        simp [List.mem_append, IH]
      · rw [if_neg e0, if_pos e1]
        simp [List.mem_append, IH]
      · rw [if_neg e0, if_neg e1, if_pos e2]
        simp [List.mem_append, IH]
      · rw [if_neg e0, if_neg e1, if_neg e2, if_pos e3]
        simp [List.mem_append, IH]
      · rw [if_neg e0, if_neg e1, if_neg e2, if_neg e3, if_pos e4]
        simp [List.mem_append, IH]
      · rw [if_neg e0, if_neg e1, if_neg e2, if_neg e3, if_neg e4, if_pos e5]
        simp [List.mem_append, IH]
      · rw [if_neg e0, if_neg e1, if_neg e2, if_neg e3, if_neg e4, if_neg e5, if_pos e6]
        simp [List.mem_append, IH]
      · rw [if_neg e0, if_neg e1, if_neg e2, if_neg e3, if_neg e4, if_neg e5, if_neg e6,
          if_pos e7]
        simp [List.mem_append, IH]

lemma insertAll_stored_mono (fuel : ℕ) (boxes : List Cube) (t : Octree) (k : Cube)
    (h : Stored k t) : Stored k (Octree.insertAll fuel t boxes) := by
  induction boxes generalizing t with
  | nil => simpa [Octree.insertAll] using h
  | cons c rest IH =>
    have step : Octree.insertAll fuel t (c :: rest) =
        Octree.insertAll fuel (Octree.insert fuel t c) rest := by
      simp [Octree.insertAll]
    rw [step]
    exact IH _ ((insert_stored_all fuel).2 t c k h)

lemma insertAll_stored (fuel : ℕ) (boxes : List Cube) (t : Octree) (k : Cube)
    (h : k ∈ boxes) : Stored k (Octree.insertAll fuel t boxes) := by
  induction boxes generalizing t with
  | nil => cases h
  | cons c rest IH =>
    have step : Octree.insertAll fuel t (c :: rest) =
        Octree.insertAll fuel (Octree.insert fuel t c) rest := by
      simp [Octree.insertAll]
    rw [step]
    rcases List.mem_cons.mp h with hk | hk
    · subst hk
      exact insertAll_stored_mono fuel rest _ k ((insert_stored_all fuel).1 t k)
    · exact IH _ hk

/-! ## Claim-side reference definitions -/

/-- The drag step as the specification phrases it: move the velocity toward
zero by the drag amount, never crossing zero. -/
def dragTowardZero (u dd : ℚ) : ℚ :=
  if 0 < u then max 0 (u - dd) else if u < 0 then min 0 (u + dd) else 0

/-- Per-axis velocity integration as the specification phrases it: add the
combined gravity component of the axis when the body allows gravity, then
apply acceleration (skipping drag) or else drag toward zero (dragTowardZero,
which never crosses zero), finally clamp into [-max, max]. -/
def computeVelocitySpec (w : ArcadeWorld) (axis : ℕ) (body : Body)
    (v a d m : ℚ) : ℚ :=
  let v1 :=
    if axis = 1 ∧ body.allowGravity then
      v + (w.gravity.x + body.gravity.x) * w.physicsElapsed
    else if axis = 2 ∧ body.allowGravity then
      v + (w.gravity.y + body.gravity.y) * w.physicsElapsed
    else if axis = 3 ∧ body.allowGravity then
      v + (w.gravity.z + body.gravity.z) * w.physicsElapsed
    else v
  let v2 := if a ≠ 0 then v1 + a * w.physicsElapsed
    else dragTowardZero v1 (d * w.physicsElapsed)
  max (-m) (min m v2)

lemma clampChain_eq_maxmin (m x : ℚ) (hm : 0 < m) :
    (if x > m then m else if x < -m then -m else x) = max (-m) (min m x) := by
  rcases lt_trichotomy x m with h | h | h
  · rw [if_neg (by linarith)]
    rcases lt_or_le x (-m) with h2 | h2
    · rw [if_pos h2, max_eq_left]
      exact le_trans (min_le_right _ _) (le_of_lt h2)
    · rw [if_neg (not_lt.mpr h2), max_eq_right, min_eq_right (le_of_lt h)]
      rw [min_eq_right (le_of_lt h)]
      exact h2
  · subst h
    rw [if_neg (lt_irrefl _), if_neg (by linarith), min_eq_left le_rfl,
      max_eq_right (by linarith)]
  · rw [if_pos h, min_eq_left (le_of_lt h), max_eq_right (by linarith)]

/-! ## Claims -/

/-- Claim C1: for every collection of boxes inserted into an octree (any
maxObjects / maxLevels at least 1, any bounds, any insertion fuel) and
every query box Q, retrieve(Q) contains every inserted box with nonnegative
extents that Q contains componentwise: retrieval never misses a true
collision candidate. -/
theorem octree_retrieve_no_false_negatives
    (fuel maxObjects maxLevels : ℕ) (x y z widthX widthY height : ℚ)
    (hmo : 1 ≤ maxObjects) (hml : 1 ≤ maxLevels)
    (boxes : List Cube) (K Q : Cube)
    (hK : K ∈ boxes) (hext : nonnegCube K) (hQK : containsBox Q K) :
    K ∈ Octree.retrieve
      (Octree.insertAll fuel
        (newOctree x y z widthX widthY height maxObjects maxLevels 0) boxes) Q :=
  stored_retrieve _ K (insertAll_stored fuel boxes _ K hK) Q hQK hext

theorem octree_retrieve_no_false_negatives_witness :
    (⟨2, 2, 2, 1, 1, 1⟩ : Cube) ∈ Octree.retrieve
      (Octree.insertAll 3 (newOctree 0 0 0 16 16 16 1 1 0)
        [⟨2, 2, 2, 1, 1, 1⟩, ⟨9, 9, 9, 2, 2, 2⟩])
      ⟨0, 0, 0, 8, 8, 8⟩ :=
  octree_retrieve_no_false_negatives 3 1 1 0 0 0 16 16 16 (by norm_num) (by norm_num)
    [⟨2, 2, 2, 1, 1, 1⟩, ⟨9, 9, 9, 2, 2, 2⟩] ⟨2, 2, 2, 1, 1, 1⟩ ⟨0, 0, 0, 8, 8, 8⟩
    (by simp)
    (by constructor <;> norm_num)
    (by refine ⟨by norm_num, ?_, by norm_num, ?_, by norm_num, ?_⟩ <;>
          norm_num [Cube.frontX, Cube.frontY, Cube.top])

/-- Claim C7 (evaluation at the failing input): splitting a node created
with maxObjects = 1, maxLevels = 7, level = 0 produces eight children whose
maxObjects is 7 (the parent maxLevels slid into that slot), whose maxLevels
is 1 (parent level + 1) and whose level is 0 — not the parent limits one
level deeper, because split passes only eight of the nine constructor
arguments. -/
theorem octree_split_child_params_eval :
    ((newOctree 0 0 0 32 32 32 1 7 0).split.childList.map Octree.maxObjects =
      [7, 7, 7, 7, 7, 7, 7, 7]) ∧
    ((newOctree 0 0 0 32 32 32 1 7 0).split.childList.map Octree.maxLevels =
      [1, 1, 1, 1, 1, 1, 1, 1]) ∧
    ((newOctree 0 0 0 32 32 32 1 7 0).split.childList.map Octree.level =
      [0, 0, 0, 0, 0, 0, 0, 0]) ∧
    (newOctree 0 0 0 32 32 32 1 7 0).maxObjects = 1 ∧
    (newOctree 0 0 0 32 32 32 1 7 0).maxLevels = 7 ∧
    (newOctree 0 0 0 32 32 32 1 7 0).level = 0 :=
  ⟨rfl, rfl, rfl, rfl, rfl, rfl⟩

/-- Claim C9: Cube.contains is inclusive on both boundaries, every box with
positive extents contains its own center point, and the concrete checks on
the box (0,0,0,10,10,10) behave as specified. -/
theorem cube_contains_center_inclusive :
    (∀ a : Cube, 0 < a.widthX → 0 < a.widthY → 0 < a.height →
      Cube.contains a a.centerX a.centerY a.centerZ = true) ∧
    Cube.contains ⟨0, 0, 0, 10, 10, 10⟩ 5 5 5 = true ∧
    Cube.contains ⟨0, 0, 0, 10, 10, 10⟩ 10 10 10 = true ∧
    Cube.contains ⟨0, 0, 0, 10, 10, 10⟩ (10001/1000) 5 5 = false := by
  have key : ∀ w : ℚ, 0 < w → 0 ≤ jsRound (w * (1/2)) ∧ jsRound (w * (1/2)) ≤ w := by
    intro w hw
    unfold jsRound
    constructor
    · have h : (0 : ℤ) ≤ ⌊w * (1/2) + 1/2⌋ := by
        apply Int.le_floor.mpr
        push_cast
        linarith
      exact_mod_cast h
    · rcases le_or_lt 1 w with h1 | h1
      · have h2 : ((⌊w * (1/2) + 1/2⌋ : ℤ) : ℚ) ≤ w * (1/2) + 1/2 := Int.floor_le _
        linarith
      · have h3 : ⌊w * (1/2) + 1/2⌋ < 1 := by
          apply Int.floor_lt.mpr
          push_cast
          linarith
        have h4 : ⌊w * (1/2) + 1/2⌋ ≤ 0 := by omega
        have h5 : ((⌊w * (1/2) + 1/2⌋ : ℤ) : ℚ) ≤ 0 := by exact_mod_cast h4
        linarith
  refine ⟨?_,
    by norm_num [Cube.contains, Cube.frontX, Cube.frontY, Cube.top],
    by norm_num [Cube.contains, Cube.frontX, Cube.frontY, Cube.top],
    by norm_num [Cube.contains, Cube.frontX, Cube.frontY, Cube.top]⟩
  intro a hx hy hz
  obtain ⟨kx1, kx2⟩ := key a.widthX hx
  obtain ⟨ky1, ky2⟩ := key a.widthY hy
  obtain ⟨kz1, kz2⟩ := key a.height hz
  unfold Cube.contains
  rw [if_neg (by push_neg; exact ⟨hx, hy, hz⟩)]
  apply decide_eq_true
  unfold Cube.centerX Cube.centerY Cube.centerZ Cube.halfWidthX Cube.halfWidthY
    Cube.halfHeight Cube.frontX Cube.frontY Cube.top
  refine ⟨by linarith, by linarith, by linarith, by linarith, by linarith, by linarith⟩

theorem cube_contains_center_inclusive_witness :
    Cube.contains ⟨1, 2, 3, 5, 6, 7⟩ (Cube.centerX ⟨1, 2, 3, 5, 6, 7⟩)
      (Cube.centerY ⟨1, 2, 3, 5, 6, 7⟩) (Cube.centerZ ⟨1, 2, 3, 5, 6, 7⟩) = true :=
  cube_contains_center_inclusive.1 ⟨1, 2, 3, 5, 6, 7⟩ (by norm_num) (by norm_num)
    (by norm_num)

/-- Claim C10: the physics-world body test uses strict inequalities, so
exactly touching bodies are not intersecting and separate does nothing for
them, while Cube.intersects with inclusive comparisons reports two exactly
touching cubes (with positive extents) as intersecting. -/
theorem touching_bodies_strict_cubes_inclusive :
    (∀ b1 b2 : Body, b1.frontX = b2.x →
      Arcade.intersects b1 b2 = false ∧
      ∀ (sq : ℚ → ℚ) (w : ArcadeWorld) (proc : Option (Body → Body → Bool)) (oo : Bool),
        (Arcade.separate sq w b1 b2 proc oo).1 = false) ∧
    (∀ a b : Cube, 0 < a.widthX → 0 < a.widthY → 0 < a.height →
      0 < b.widthX → 0 < b.widthY → 0 < b.height →
      a.frontX = b.x → b.y ≤ a.frontY → a.x ≤ b.frontX → a.y ≤ b.frontY →
      b.z ≤ a.top → a.z ≤ b.top → Cube.intersects a b = true) := by
  constructor
  · intro b1 b2 htouch
    have hint : Arcade.intersects b1 b2 = false := by
      unfold Arcade.intersects
      rw [if_pos (le_of_eq htouch)]
    refine ⟨hint, ?_⟩
    intro sq w proc oo
    unfold Arcade.separate
    rw [if_pos (by simp [hint])]
  · intro a b ax ay az bx By bz htouch h1 h2 h3 h4 h5
    unfold Cube.intersects
    rw [if_neg (by push_neg; exact ⟨ax, ay, az, bx, By, bz⟩)]
    simp only [Bool.not_eq_eq_eq_not, Bool.not_true, decide_eq_false_iff_not, not_or,
      not_lt]
    exact ⟨le_of_eq htouch.symm, h1, h2, h3, h5, h4⟩

theorem touching_bodies_strict_cubes_inclusive_witness :
    (Arcade.intersects
      ⟨true, false, false, false, ⟨0, 0, 0⟩, ⟨0, 0, 0⟩, 10, 10, 10, ⟨0, 0, 0⟩, ⟨0, 0, 0⟩,
        ⟨0, 0, 0⟩, 1, ⟨true, true, true, true, true, true, true⟩,
        ⟨true, false, false, false, false, false, false⟩, false, false, false, 0, 0, 0, false⟩
      ⟨true, false, false, false, ⟨10, 0, 0⟩, ⟨10, 0, 0⟩, 10, 10, 10, ⟨0, 0, 0⟩, ⟨0, 0, 0⟩,
        ⟨0, 0, 0⟩, 1, ⟨true, true, true, true, true, true, true⟩,
        ⟨true, false, false, false, false, false, false⟩, false, false, false, 0, 0, 0, false⟩
      = false) ∧
    Cube.intersects ⟨0, 0, 0, 10, 10, 10⟩ ⟨10, 0, 0, 10, 10, 10⟩ = true := by
  constructor
  · exact ((touching_bodies_strict_cubes_inclusive.1 _ _ (by norm_num [Body.frontX, Body.x])).1)
  · exact touching_bodies_strict_cubes_inclusive.2 ⟨0, 0, 0, 10, 10, 10⟩ ⟨10, 0, 0, 10, 10, 10⟩
      (by norm_num) (by norm_num) (by norm_num) (by norm_num) (by norm_num) (by norm_num)
      (by norm_num [Cube.frontX]) (by norm_num [Cube.frontY]) (by norm_num [Cube.frontX])
      (by norm_num [Cube.frontY]) (by norm_num [Cube.top]) (by norm_num [Cube.top])

lemma separateX_both_immovable (sq : ℚ → ℚ) (w : ArcadeWorld) (b1 b2 : Body) (oo : Bool)
    (h1 : b1.immovable = true) (h2 : b2.immovable = true) :
    Arcade.separateX sq w b1 b2 oo = (false, b1, b2) := by
  unfold Arcade.separateX
  rw [if_pos (by rw [h1, h2]; rfl)]

lemma separateY_both_immovable (sq : ℚ → ℚ) (w : ArcadeWorld) (b1 b2 : Body) (oo : Bool)
    (h1 : b1.immovable = true) (h2 : b2.immovable = true) :
    Arcade.separateY sq w b1 b2 oo = (false, b1, b2) := by
  unfold Arcade.separateY
  rw [if_pos (by rw [h1, h2]; rfl)]

lemma separateZ_both_immovable (sq : ℚ → ℚ) (w : ArcadeWorld) (b1 b2 : Body) (oo : Bool)
    (h1 : b1.immovable = true) (h2 : b2.immovable = true) :
    Arcade.separateZ sq w b1 b2 oo = (false, b1, b2) := by
  unfold Arcade.separateZ
  rw [if_pos (by rw [h1, h2]; rfl)]

/-- Claim C2 counterexample: two enabled, strictly intersecting, both
immovable bodies with overlapOnly = true make separate return true — the
claim says false for both values of overlapOnly.  The immovable guard lives
in the per-axis routines, which the overlapOnly path never reaches. -/
theorem separate_both_immovable_overlapOnly_eval :
    (Arcade.separate (fun q => q) ⟨⟨0, 0, 0⟩, 4, false, 1/60⟩
      ⟨true, false, true, false, ⟨0, 0, 0⟩, ⟨0, 0, 0⟩, 10, 10, 10, ⟨0, 0, 0⟩, ⟨0, 0, 0⟩,
        ⟨0, 0, 0⟩, 1, ⟨true, true, true, true, true, true, true⟩,
        ⟨true, false, false, false, false, false, false⟩, false, false, false, 0, 0, 0, false⟩
      ⟨true, false, true, false, ⟨5, 5, 5⟩, ⟨5, 5, 5⟩, 10, 10, 10, ⟨0, 0, 0⟩, ⟨0, 0, 0⟩,
        ⟨0, 0, 0⟩, 1, ⟨true, true, true, true, true, true, true⟩,
        ⟨true, false, false, false, false, false, false⟩, false, false, false, 0, 0, 0, false⟩
      Option.none true).1 = true := by
  norm_num [Arcade.separate, Arcade.intersects, Arcade.processPasses,
    Body.frontX, Body.frontY, Body.top, Body.x, Body.y, Body.z]

/-- Claim C2 (amended): separate returns false whenever either body is
disabled or the boxes do not strictly intersect (for both overlapOnly
values), and also when both bodies are immovable provided overlapOnly is
false — the per-axis routines reject immovable pairs.  (With overlapOnly
true, an enabled intersecting immovable pair reports true instead.) -/
theorem separate_returns_false_cases (sq : ℚ → ℚ) (w : ArcadeWorld) (b1 b2 : Body)
    (proc : Option (Body → Body → Bool)) (oo : Bool)
    (h : b1.enable = false ∨ b2.enable = false ∨ Arcade.intersects b1 b2 = false ∨
      (b1.immovable = true ∧ b2.immovable = true ∧ oo = false)) :
    (Arcade.separate sq w b1 b2 proc oo).1 = false := by
  rcases h with h | h | h | ⟨hi1, hi2, hoo⟩
  · simp [Arcade.separate, h]
  · simp [Arcade.separate, h]
  · simp [Arcade.separate, h]
  · subst hoo
    have hx := separateX_both_immovable sq w b1 b2 false hi1 hi2
    have hy := separateY_both_immovable sq w b1 b2 false hi1 hi2
    have hz := separateZ_both_immovable sq w b1 b2 false hi1 hi2
    unfold Arcade.separate
    split_ifs <;> simp_all

theorem separate_returns_false_cases_witness :
    (Arcade.separate (fun q => q) ⟨⟨0, 0, 0⟩, 4, false, 1/60⟩
      ⟨false, false, false, false, ⟨0, 0, 0⟩, ⟨0, 0, 0⟩, 10, 10, 10, ⟨0, 0, 0⟩, ⟨0, 0, 0⟩,
        ⟨0, 0, 0⟩, 1, ⟨true, true, true, true, true, true, true⟩,
        ⟨true, false, false, false, false, false, false⟩, false, false, false, 0, 0, 0, false⟩
      ⟨true, false, false, false, ⟨5, 5, 5⟩, ⟨5, 5, 5⟩, 10, 10, 10, ⟨0, 0, 0⟩, ⟨0, 0, 0⟩,
        ⟨0, 0, 0⟩, 1, ⟨true, true, true, true, true, true, true⟩,
        ⟨true, false, false, false, false, false, false⟩, false, false, false, 0, 0, 0, false⟩
      Option.none false).1 = false :=
  separate_returns_false_cases (fun q => q) ⟨⟨0, 0, 0⟩, 4, false, 1/60⟩ _ _ Option.none false
    (Or.inl rfl)

/-- Claim C3: an overlap check (separate with overlapOnly true) returns both
bodies exactly unchanged — in particular no position or velocity component
moves — and reports true for every enabled intersecting pair that the
process callback does not veto. -/
theorem separate_overlapOnly_no_mutation (sq : ℚ → ℚ) (w : ArcadeWorld) (b1 b2 : Body)
    (proc : Option (Body → Body → Bool)) :
    (Arcade.separate sq w b1 b2 proc true).2.1 = b1 ∧
    (Arcade.separate sq w b1 b2 proc true).2.2 = b2 ∧
    (b1.enable = true → b2.enable = true → Arcade.intersects b1 b2 = true →
      Arcade.processPasses proc b1 b2 = true →
      (Arcade.separate sq w b1 b2 proc true).1 = true) := by
  unfold Arcade.separate
  split_ifs with h1 h2 h3 h4
  · refine ⟨rfl, rfl, ?_⟩
    intro he1 he2 hint _
    rw [he1, he2, hint] at h1
    simp at h1
  · refine ⟨rfl, rfl, ?_⟩
    intro _ _ _ hp
    rw [hp] at h2
    exact Bool.noConfusion h2
  · exact ⟨rfl, rfl, fun _ _ _ _ => rfl⟩
  · exact absurd rfl h3
  · exact absurd rfl h3

theorem separate_overlapOnly_no_mutation_witness :
    ((Arcade.separate (fun q => q) ⟨⟨0, 0, 0⟩, 4, false, 1/60⟩
      ⟨true, false, false, false, ⟨0, 0, 0⟩, ⟨0, 0, 0⟩, 10, 10, 10, ⟨1, 2, 3⟩, ⟨0, 0, 0⟩,
        ⟨0, 0, 0⟩, 1, ⟨true, true, true, true, true, true, true⟩,
        ⟨true, false, false, false, false, false, false⟩, false, false, false, 0, 0, 0, false⟩
      ⟨true, false, false, false, ⟨5, 5, 5⟩, ⟨5, 5, 5⟩, 10, 10, 10, ⟨4, 5, 6⟩, ⟨0, 0, 0⟩,
        ⟨0, 0, 0⟩, 1, ⟨true, true, true, true, true, true, true⟩,
        ⟨true, false, false, false, false, false, false⟩, false, false, false, 0, 0, 0, false⟩
      Option.none true).2.1 =
      ⟨true, false, false, false, ⟨0, 0, 0⟩, ⟨0, 0, 0⟩, 10, 10, 10, ⟨1, 2, 3⟩, ⟨0, 0, 0⟩,
        ⟨0, 0, 0⟩, 1, ⟨true, true, true, true, true, true, true⟩,
        ⟨true, false, false, false, false, false, false⟩, false, false, false, 0, 0, 0, false⟩) ∧
    ((Arcade.separate (fun q => q) ⟨⟨0, 0, 0⟩, 4, false, 1/60⟩
      ⟨true, false, false, false, ⟨0, 0, 0⟩, ⟨0, 0, 0⟩, 10, 10, 10, ⟨1, 2, 3⟩, ⟨0, 0, 0⟩,
        ⟨0, 0, 0⟩, 1, ⟨true, true, true, true, true, true, true⟩,
        ⟨true, false, false, false, false, false, false⟩, false, false, false, 0, 0, 0, false⟩
      ⟨true, false, false, false, ⟨5, 5, 5⟩, ⟨5, 5, 5⟩, 10, 10, 10, ⟨4, 5, 6⟩, ⟨0, 0, 0⟩,
        ⟨0, 0, 0⟩, 1, ⟨true, true, true, true, true, true, true⟩,
        ⟨true, false, false, false, false, false, false⟩, false, false, false, 0, 0, 0, false⟩
      Option.none true).1 = true) := by
  constructor
  · exact (separate_overlapOnly_no_mutation (fun q => q) ⟨⟨0, 0, 0⟩, 4, false, 1/60⟩
      _ _ Option.none).1
  · exact (separate_overlapOnly_no_mutation (fun q => q) ⟨⟨0, 0, 0⟩, 4, false, 1/60⟩
      _ _ Option.none).2.2 rfl rfl
      (by norm_num [Arcade.intersects, Body.frontX, Body.frontY, Body.top,
        Body.x, Body.y, Body.z]) rfl

lemma dragTowardZero_self (u : ℚ) : dragTowardZero u 0 = u := by
  unfold dragTowardZero
  split_ifs with c1 c2
  · rw [sub_zero, max_eq_right (le_of_lt c1)]
  · rw [add_zero, min_eq_right (le_of_lt c2)]
  · linarith

lemma dragChain_eq (v1 dd : ℚ) (hdd : 0 ≤ dd) :
    (if v1 - dd > 0 then v1 - dd else if v1 + dd < 0 then v1 + dd else (0 : ℚ)) =
      dragTowardZero v1 dd := by
  unfold dragTowardZero
  rcases lt_trichotomy v1 0 with hv | hv | hv
  · rw [if_neg (by linarith : ¬v1 - dd > 0), if_neg (by linarith : ¬0 < v1), if_pos hv]
    rcases lt_or_le (v1 + dd) 0 with h | h
    · rw [if_pos h, min_eq_right (le_of_lt h)]
    · rw [if_neg (not_lt.mpr h), min_eq_left h]
  · subst hv
    rw [if_neg (by linarith : ¬(0 : ℚ) - dd > 0), if_neg (by linarith : ¬(0 : ℚ) + dd < 0),
      if_neg (lt_irrefl 0), if_neg (lt_irrefl 0)]
  · rw [if_pos hv]
    rcases lt_or_le dd v1 with h | h
    · rw [if_pos (by linarith), max_eq_right (by linarith)]
    · rw [if_neg (by linarith), if_neg (by linarith : ¬v1 + dd < 0), max_eq_left (by linarith)]

lemma accelDrag_eq (v1 a d dt : ℚ) (hdd : 0 ≤ d * dt) :
    (if a ≠ 0 then v1 + a * dt
     else if d ≠ 0 then
       (if v1 - d * dt > 0 then v1 - d * dt
        else if v1 + d * dt < 0 then v1 + d * dt else 0)
     else v1) =
    (if a ≠ 0 then v1 + a * dt else dragTowardZero v1 (d * dt)) := by
  by_cases ha : a = 0
  · simp only [ha, ne_eq, not_true_eq_false, if_false]
    by_cases hdz : d = 0
    · simp only [hdz, ne_eq, not_true_eq_false, if_false, zero_mul]
      exact (dragTowardZero_self v1).symm
    · rw [if_pos hdz]
      exact dragChain_eq v1 (d * dt) hdd
  · simp only [ha, ne_eq, not_false_iff, if_true]

lemma postGravity_eq (v1 a d dt m : ℚ) (hm : 0 < m) (hdd : 0 ≤ d * dt) :
    (if (if a ≠ 0 then v1 + a * dt
         else if d ≠ 0 then
           (if v1 - d * dt > 0 then v1 - d * dt
            else if v1 + d * dt < 0 then v1 + d * dt else 0)
         else v1) > m then m
     else if (if a ≠ 0 then v1 + a * dt
         else if d ≠ 0 then
           (if v1 - d * dt > 0 then v1 - d * dt
            else if v1 + d * dt < 0 then v1 + d * dt else 0)
         else v1) < -m then -m
     else (if a ≠ 0 then v1 + a * dt
         else if d ≠ 0 then
           (if v1 - d * dt > 0 then v1 - d * dt
            else if v1 + d * dt < 0 then v1 + d * dt else 0)
         else v1)) =
    max (-m) (min m (if a ≠ 0 then v1 + a * dt else dragTowardZero v1 (d * dt))) := by
  rw [accelDrag_eq v1 a d dt hdd]
  exact clampChain_eq_maxmin m _ hm

/-- Claim C4 (amended): on each axis 1, 2, 3, computeVelocity equals the
specification composition — add combined gravity when the body allows
gravity, then apply acceleration (skipping drag) or else move the velocity
toward zero by the drag amount without crossing zero, finally clamp into
[-max, max] — provided the per-axis maxVelocity is positive (the code
substitutes the default 10000 when it is zero), drag is nonnegative and the
frame time is nonnegative; the clamped result always lies in [-max, max],
and the drag step never crosses zero. -/
theorem computeVelocity_matches_spec (w : ArcadeWorld) (axis : ℕ) (body : Body)
    (v a d m : ℚ) (haxis : axis = 1 ∨ axis = 2 ∨ axis = 3) (hm : 0 < m)
    (hd : 0 ≤ d) (hdt : 0 ≤ w.physicsElapsed) :
    Arcade.computeVelocity w axis body v a d m = computeVelocitySpec w axis body v a d m ∧
    |Arcade.computeVelocity w axis body v a d m| ≤ m ∧
    (∀ u dd : ℚ, 0 ≤ dd →
      (0 ≤ u → 0 ≤ dragTowardZero u dd ∧ dragTowardZero u dd ≤ u) ∧
      (u ≤ 0 → u ≤ dragTowardZero u dd ∧ dragTowardZero u dd ≤ 0)) := by
  have hdd : 0 ≤ d * w.physicsElapsed := mul_nonneg hd hdt
  have dragProps : ∀ u dd : ℚ, 0 ≤ dd →
      (0 ≤ u → 0 ≤ dragTowardZero u dd ∧ dragTowardZero u dd ≤ u) ∧
      (u ≤ 0 → u ≤ dragTowardZero u dd ∧ dragTowardZero u dd ≤ 0) := by
    intro u dd hddu
    unfold dragTowardZero
    constructor
    · intro hu
      split_ifs with c1 c2
      · exact ⟨le_max_left 0 _, max_le hu (by linarith)⟩
      · exact absurd c2 (not_lt.mpr hu)
      · exact ⟨le_rfl, hu⟩
    · intro hu
      split_ifs with c1 c2
      · exact absurd c1 (not_lt.mpr hu)
      · exact ⟨le_min hu (by linarith), min_le_left 0 _⟩
      · exact ⟨hu, le_rfl⟩
  have heq : Arcade.computeVelocity w axis body v a d m =
      computeVelocitySpec w axis body v a d m := by
    unfold Arcade.computeVelocity computeVelocitySpec
    simp only [if_neg hm.ne']
    exact postGravity_eq _ a d w.physicsElapsed m hm hdd
  refine ⟨heq, ?_, dragProps⟩
  rw [heq]
  unfold computeVelocitySpec
  apply abs_le.mpr
  constructor
  · exact le_max_left _ _
  · exact max_le (by linarith) (min_le_left _ _)

theorem computeVelocity_matches_spec_witness :
    Arcade.computeVelocity ⟨⟨0, 0, -10⟩, 4, false, 1/60⟩ 3
      ⟨true, true, false, true, ⟨0, 0, 0⟩, ⟨0, 0, 0⟩, 10, 10, 10, ⟨0, 0, 0⟩, ⟨0, 0, 0⟩,
        ⟨0, 0, -2⟩, 1, ⟨true, true, true, true, true, true, true⟩,
        ⟨true, false, false, false, false, false, false⟩, false, false, false, 0, 0, 0, false⟩
      5 0 2 100 =
      computeVelocitySpec ⟨⟨0, 0, -10⟩, 4, false, 1/60⟩ 3
      ⟨true, true, false, true, ⟨0, 0, 0⟩, ⟨0, 0, 0⟩, 10, 10, 10, ⟨0, 0, 0⟩, ⟨0, 0, 0⟩,
        ⟨0, 0, -2⟩, 1, ⟨true, true, true, true, true, true, true⟩,
        ⟨true, false, false, false, false, false, false⟩, false, false, false, 0, 0, 0, false⟩
      5 0 2 100 ∧
    |Arcade.computeVelocity ⟨⟨0, 0, -10⟩, 4, false, 1/60⟩ 3
      ⟨true, true, false, true, ⟨0, 0, 0⟩, ⟨0, 0, 0⟩, 10, 10, 10, ⟨0, 0, 0⟩, ⟨0, 0, 0⟩,
        ⟨0, 0, -2⟩, 1, ⟨true, true, true, true, true, true, true⟩,
        ⟨true, false, false, false, false, false, false⟩, false, false, false, 0, 0, 0, false⟩
      5 0 2 100| ≤ 100 :=
  ⟨(computeVelocity_matches_spec ⟨⟨0, 0, -10⟩, 4, false, 1/60⟩ 3 _ 5 0 2 100
      (Or.inr (Or.inr rfl)) (by norm_num) (by norm_num) (by norm_num)).1,
   (computeVelocity_matches_spec ⟨⟨0, 0, -10⟩, 4, false, 1/60⟩ 3 _ 5 0 2 100
      (Or.inr (Or.inr rfl)) (by norm_num) (by norm_num) (by norm_num)).2.1⟩

/-- Claim C4 counterexample: with maxVelocity = 0 the claimed clamp into
[-0, 0] fails — the code substitutes the default 10000 and returns the
unclamped velocity 5. -/
theorem computeVelocity_zero_max_eval :
    Arcade.computeVelocity ⟨⟨0, 0, 0⟩, 4, false, 1/60⟩ 1
      ⟨true, true, false, false, ⟨0, 0, 0⟩, ⟨0, 0, 0⟩, 10, 10, 10, ⟨0, 0, 0⟩, ⟨0, 0, 0⟩,
        ⟨0, 0, 0⟩, 1, ⟨true, true, true, true, true, true, true⟩,
        ⟨true, false, false, false, false, false, false⟩, false, false, false, 0, 0, 0, false⟩
      5 0 0 0 = 5 ∧
    ¬(|Arcade.computeVelocity ⟨⟨0, 0, 0⟩, 4, false, 1/60⟩ 1
      ⟨true, true, false, false, ⟨0, 0, 0⟩, ⟨0, 0, 0⟩, 10, 10, 10, ⟨0, 0, 0⟩, ⟨0, 0, 0⟩,
        ⟨0, 0, 0⟩, 1, ⟨true, true, true, true, true, true, true⟩,
        ⟨true, false, false, false, false, false, false⟩, false, false, false, 0, 0, 0, false⟩
      5 0 0 0| ≤ 0) := by
  have h : Arcade.computeVelocity ⟨⟨0, 0, 0⟩, 4, false, 1/60⟩ 1
      ⟨true, true, false, false, ⟨0, 0, 0⟩, ⟨0, 0, 0⟩, 10, 10, 10, ⟨0, 0, 0⟩, ⟨0, 0, 0⟩,
        ⟨0, 0, 0⟩, 1, ⟨true, true, true, true, true, true, true⟩,
        ⟨true, false, false, false, false, false, false⟩, false, false, false, 0, 0, 0, false⟩
      5 0 0 0 = 5 := by
    norm_num [Arcade.computeVelocity]
  refine ⟨h, ?_⟩
  rw [h]
  norm_num

/-- Claim C8 (evaluation at the failing input, Z axis): body1 requests
custom separation on Z (customSeparateZ true, customSeparateY false), the
bodies genuinely overlap on Z, yet separateZ — whose guard tests
body1.customSeparateY instead of customSeparateZ — proceeds and moves
body1.z from 9 to 5 instead of returning right after recording overlapZ. -/
theorem separateZ_customSeparateZ_ignored_eval :
    ((Arcade.separateZ (fun q => q) ⟨⟨0, 0, 0⟩, 4, false, 1/60⟩
      ⟨true, false, false, false, ⟨0, 0, 9⟩, ⟨0, 0, 6⟩, 10, 10, 10, ⟨0, 0, 3⟩, ⟨0, 0, 0⟩,
        ⟨0, 0, 0⟩, 1, ⟨true, true, true, true, true, true, true⟩,
        ⟨true, false, false, false, false, false, false⟩, false, false, true, 0, 0, 0, false⟩
      ⟨true, false, true, false, ⟨0, 0, 15⟩, ⟨0, 0, 15⟩, 10, 10, 10, ⟨0, 0, 0⟩, ⟨0, 0, 0⟩,
        ⟨0, 0, 0⟩, 1, ⟨true, true, true, true, true, true, true⟩,
        ⟨true, false, false, false, false, false, false⟩, false, false, false, 0, 0, 0, false⟩
      false).2.1.position.z = 5) ∧
    ((Arcade.separateZ (fun q => q) ⟨⟨0, 0, 0⟩, 4, false, 1/60⟩
      ⟨true, false, false, false, ⟨0, 0, 9⟩, ⟨0, 0, 6⟩, 10, 10, 10, ⟨0, 0, 3⟩, ⟨0, 0, 0⟩,
        ⟨0, 0, 0⟩, 1, ⟨true, true, true, true, true, true, true⟩,
        ⟨true, false, false, false, false, false, false⟩, false, false, true, 0, 0, 0, false⟩
      ⟨true, false, true, false, ⟨0, 0, 15⟩, ⟨0, 0, 15⟩, 10, 10, 10, ⟨0, 0, 0⟩, ⟨0, 0, 0⟩,
        ⟨0, 0, 0⟩, 1, ⟨true, true, true, true, true, true, true⟩,
        ⟨true, false, false, false, false, false, false⟩, false, false, false, 0, 0, 0, false⟩
      false).1 = true) := by
  constructor <;>
    norm_num [Arcade.separateZ, Arcade.intersects, Body.deltaZ, Body.deltaAbsZ,
      Body.top, Body.z, Body.frontX, Body.frontY, Body.x, Body.y]

/-- Claim C6: for every projection angle strictly between 0 and π/2,
projecting a 3D point and unprojecting the result at the same z-plane
recovers the original x and y exactly over the reals, for a projector whose
cached transform holds the cosine and sine of the angle and whose world
position is the origin. -/
theorem project_unproject_inverse (θ : ℝ) (h0 : 0 < θ) (h1 : θ < Real.pi / 2)
    (p : Projector ℝ) (ht0 : p.transform0 = Real.cos θ) (ht1 : p.transform1 = Real.sin θ)
    (hwx : p.worldX = 0) (hwy : p.worldY = 0) (x y z : ℝ) :
    p.unproject (p.project x y z).1 (p.project x y z).2 z = (x, y, z) := by
  have hc : Real.cos θ ≠ 0 := by
    have : 0 < Real.cos θ :=
      Real.cos_pos_of_mem_Ioo ⟨by linarith [Real.pi_pos], h1⟩
    exact ne_of_gt this
  have hs : Real.sin θ ≠ 0 := by
    have : 0 < Real.sin θ :=
      Real.sin_pos_of_pos_of_lt_pi h0 (by linarith [Real.pi_pos])
    exact ne_of_gt this
  unfold Projector.unproject Projector.project
  rw [ht0, ht1, hwx, hwy]
  simp only [Prod.mk.injEq]
  refine ⟨?_, ?_, trivial⟩
  · field_simp
    ring
  · field_simp
    ring

theorem project_unproject_inverse_witness :
    Projector.unproject (⟨Real.cos (Real.pi / 4), Real.sin (Real.pi / 4),
        0, 0, 800, 600, 1/2, 0⟩ : Projector ℝ)
      (Projector.project ⟨Real.cos (Real.pi / 4), Real.sin (Real.pi / 4),
        0, 0, 800, 600, 1/2, 0⟩ 3 5 7).1
      (Projector.project ⟨Real.cos (Real.pi / 4), Real.sin (Real.pi / 4),
        0, 0, 800, 600, 1/2, 0⟩ 3 5 7).2 7 = (3, 5, 7) :=
  project_unproject_inverse (Real.pi / 4) (by positivity)
    (by linarith [Real.pi_pos]) _ rfl rfl rfl rfl 3 5 7

/-! ## Projector.topologicalSort

The sort builds, for every object a, the list of objects recorded as behind
a (strict padded comparisons of the other object's position against a's
bounding box), then runs a depth-first visit over these lists, assigning
increasing integer keys in post-order.  Visited flags guard re-entry, and a
processed list entry is overwritten with null (the loop breaks at the first
null).  The source recursion is unbounded; the embedding uses a fuel
argument, and the top-level driver passes n + 1, which is more fuel than
any chain of unvisited nodes can consume. -/

namespace TopoSort

/-- The data the sort reads from one object: its _isoPosition and the
front faces of its bounding volume (body or isoBounds). -/
structure SortObj where
  posX : ℚ
  posY : ℚ
  posZ : ℚ
  frontX : ℚ
  frontY : ℚ
  top : ℚ
deriving DecidableEq, Repr

/-- b is recorded as behind a when the padded position of b lies strictly
behind all three padded front faces of a. -/
def behindCond (pad : ℚ) (a b : SortObj) : Prop :=
  b.posX + pad < a.frontX - pad ∧ b.posY + pad < a.frontY - pad ∧
    b.posZ + pad < a.top - pad

instance (pad : ℚ) (a b : SortObj) : Decidable (behindCond pad a b) := by
  unfold behindCond
  infer_instance

/-- The isoSpritesBehind list built for object i: all j ≠ i, in index
order, whose position is behind the bounds of i. -/
def behindList {n : ℕ} (objs : Fin n → SortObj) (pad : ℚ) (i : Fin n) : List (Fin n) :=
  (List.finRange n).filter (fun j => decide (j ≠ i ∧ behindCond pad (objs i) (objs j)))

/-- Mutable state of one topologicalSort call: visited flags, the behind
lists (entries become none once processed), the assigned keys and the
depth counter. -/
structure TState (n : ℕ) where
  visited : Fin n → Bool
  lists : Fin n → List (Option (Fin n))
  keys : Fin n → Option ℕ
  depth : ℕ

def initState {n : ℕ} (objs : Fin n → SortObj) (pad : ℚ) : TState n :=
  { visited := fun _ => false
    lists := fun i => (behindList objs pad i).map Option.some
    keys := fun _ => Option.none
    depth := 0 }

/-- The for-loop inside visitNode over the positions of node i's behind
list: break at a null entry, otherwise visit the entry, null it out and
continue. -/
def visitLoop {n : ℕ} (visit : Fin n → TState n → TState n) (i : Fin n) :
    List ℕ → TState n → TState n
  | [], s => s
  | k :: ks, s =>
    match (s.lists i).getD k Option.none with
    | Option.none => s
    | Option.some j =>
      let s1 := visit j s
      let s2 : TState n :=
        { s1 with lists := Function.update s1.lists i ((s1.lists i).set k Option.none) }
      visitLoop visit i ks s2

/-- visitNode: skip if visited, otherwise mark visited, run the loop over
the (length-cached) behind list, then assign the next key. -/
def visitNode {n : ℕ} : ℕ → Fin n → TState n → TState n
  | 0, _, s => s
  | (fuel + 1), i, s =>
    if s.visited i then s
    else
      let s1 : TState n := { s with visited := Function.update s.visited i true }
      let s2 := visitLoop (fun j t => visitNode fuel j t) i
        (List.range (s1.lists i).length) s1
      { s2 with keys := Function.update s2.keys i (Option.some s2.depth),
                depth := s2.depth + 1 }

/-- One whole topologicalSort call: fresh state, then the top-level loop
visiting every object in order.  The fuel n + 1 exceeds the depth any
chain of distinct unvisited nodes can reach, so the fuel fallback is never
taken. -/
def topoSortKeys {n : ℕ} (objs : Fin n → SortObj) (pad : ℚ) : Fin n → Option ℕ :=
  ((List.finRange n).foldl (fun s i => visitNode (n + 1) i s) (initState objs pad)).keys

/-! ### Correctness of the depth-first key assignment -/

/-- A gray node: visited (its frame is on the stack) but not yet assigned. -/
def Gray {n : ℕ} (s : TState n) (g : Fin n) : Prop :=
  s.visited g = true ∧ s.keys g = Option.none

/-- The state invariant: keys are below the depth counter, unvisited nodes
still hold their original behind lists, assigned nodes are visited, and
every behind-neighbour of an assigned node is assigned with a smaller
key. -/
def INV {n : ℕ} (origB : Fin n → List (Fin n)) (s : TState n) : Prop :=
  (∀ i k, s.keys i = Option.some k → k < s.depth) ∧
  (∀ i, s.visited i = false → s.lists i = (origB i).map Option.some) ∧
  (∀ i, s.keys i ≠ Option.none → s.visited i = true) ∧
  (∀ a ka, s.keys a = Option.some ka → ∀ b, b ∈ origB a →
    ∃ kb, s.keys b = Option.some kb ∧ kb < ka)

end TopoSort

namespace TopoSort

lemma getD_map_some {α : Type} :
    ∀ (l : List α) (k : ℕ) (hk : k < l.length),
      (l.map Option.some).getD k Option.none = Option.some (l.get ⟨k, hk⟩)
  | a :: l, 0, _ => rfl
  | a :: l, (k + 1), hk =>
    getD_map_some l k (Nat.lt_of_succ_lt_succ hk)

lemma getD_set_ne {α : Type} :
    ∀ (l : List α) (v : α) (k m : ℕ), k ≠ m → ∀ d,
      (l.set k v).getD m d = l.getD m d
  | [], _, _, _, _, _ => rfl
  | a :: l, v, 0, 0, h, d => absurd rfl h
  | a :: l, v, 0, (m + 1), _, d => rfl
  | a :: l, v, (k + 1), 0, _, d => rfl
  | a :: l, v, (k + 1), (m + 1), h, d =>
    getD_set_ne l v k m (fun he => h (by rw [he])) d

/-- Monotone state evolution: visited flags and assigned keys persist, the
depth counter only grows. -/
def Mono {n : ℕ} (s t : TState n) : Prop :=
  (∀ j, s.visited j = true → t.visited j = true) ∧
  (∀ j k, s.keys j = Option.some k → t.keys j = Option.some k) ∧
  s.depth ≤ t.depth

lemma Mono.rfl {n : ℕ} (s : TState n) : Mono s s :=
  ⟨fun _ h => h, fun _ _ h => h, le_rfl⟩

lemma Mono.trans {n : ℕ} {s t u : TState n} (h1 : Mono s t) (h2 : Mono t u) :
    Mono s u :=
  ⟨fun j h => h2.1 j (h1.1 j h), fun j k h => h2.2.1 j k (h1.2.1 j k h),
    le_trans h1.2.2 h2.2.2⟩

/-- The full conclusion of one visitNode call on node i. -/
def VisitOK {n : ℕ} (origB : Fin n → List (Fin n)) (s t : TState n) (i : Fin n) : Prop :=
  INV origB t ∧ Mono s t ∧
  (∀ j, s.visited j = true → t.lists j = s.lists j) ∧
  (∀ g, Gray t g → Gray s g) ∧ (∀ g, Gray s g → Gray t g) ∧
  t.visited i = true ∧ t.keys i ≠ Option.none

/-- The full conclusion of the entry loop of node i. -/
def LoopOK {n : ℕ} (origB : Fin n → List (Fin n)) (t u : TState n) (i : Fin n) : Prop :=
  INV origB u ∧ Mono t u ∧
  (∀ j, j ≠ i → t.visited j = true → u.lists j = t.lists j) ∧
  (∀ g, Gray u g → Gray t g) ∧ (∀ g, Gray t g → Gray u g) ∧
  (∀ b, b ∈ origB i → u.keys b ≠ Option.none)

end TopoSort

namespace TopoSort

lemma visitLoop_nil {n : ℕ} (visit : Fin n → TState n → TState n) (i : Fin n)
    (s : TState n) : visitLoop visit i [] s = s := rfl

lemma visitLoop_cons_some {n : ℕ} (fuel : ℕ) (i : Fin n)
    (k : ℕ) (ks : List ℕ) (s : TState n) (j : Fin n)
    (h : (s.lists i).getD k Option.none = Option.some j) :
    visitLoop (fun j u => visitNode fuel j u) i (k :: ks) s =
      visitLoop (fun j u => visitNode fuel j u) i ks
        { visitNode fuel j s with lists := Function.update (visitNode fuel j s).lists i (((visitNode fuel j s).lists i).set k Option.none) } := by
  rw [visitLoop, h]

lemma visitLoop_spec {n : ℕ} (origB : Fin n → List (Fin n)) (rank : Fin n → ℕ)
    (hrank : ∀ a b : Fin n, b ∈ origB a → rank b < rank a)
    (fuel : ℕ)
    (IHf : ∀ (j : Fin n) (s : TState n), INV origB s →
      (∀ g, Gray s g → rank j < rank g) → rank j < fuel →
      VisitOK origB s (visitNode fuel j s) j)
    (i : Fin n) (hfi : rank i ≤ fuel) :
    ∀ ks : List ℕ, ks.Nodup → ∀ t : TState n, INV origB t → t.visited i = true →
      (∀ g, Gray t g → rank i ≤ rank g) →
      (∀ k, k ∈ ks → ∃ hk : k < (origB i).length,
        (t.lists i).getD k Option.none = Option.some ((origB i).get ⟨k, hk⟩)) →
      (∀ b, b ∈ origB i → t.keys b ≠ Option.none ∨
        ∃ k, k ∈ ks ∧ ∃ hk : k < (origB i).length, (origB i).get ⟨k, hk⟩ = b) →
      LoopOK origB t (visitLoop (fun j u => visitNode fuel j u) i ks t) i := by
  intro ks
  induction ks with
  | nil =>
    intro _ t hINV hvis hGray hE hC
    rw [visitLoop_nil]
    refine ⟨hINV, Mono.rfl t, fun _ _ _ => rfl, fun g hg => hg, fun g hg => hg, ?_⟩
    intro b hb
    rcases hC b hb with h | ⟨k, hk, _⟩
    · exact h
    · exact absurd hk (List.not_mem_nil k)
  | cons k ks IH =>
    intro hnd t hINV hvis hGray hE hC
    obtain ⟨hndk, hndks⟩ := List.nodup_cons.mp hnd
    obtain ⟨hk, hread⟩ := hE k (List.mem_cons_self k ks)
    have hjmem : (origB i).get ⟨k, hk⟩ ∈ origB i := List.get_mem _ _ _
    have hjr : rank ((origB i).get ⟨k, hk⟩) < rank i := hrank i _ hjmem
    rw [visitLoop_cons_some fuel i k ks t _ hread]
    obtain ⟨hINVu, hMu, hLu, hFu, hGu, hvju, hkju⟩ :=
      IHf ((origB i).get ⟨k, hk⟩) t hINV
        (fun g hg => lt_of_lt_of_le hjr (hGray g hg)) (lt_of_lt_of_le hjr hfi)
    set u := visitNode fuel ((origB i).get ⟨k, hk⟩) t with hu
    set u2 : TState n :=
      { u with lists := Function.update u.lists i ((u.lists i).set k Option.none) } with hu2
    have hvisu2 : u2.visited i = true := hMu.1 i hvis
    have hINV2 : INV origB u2 := by
      obtain ⟨hKd, hLf, hAV, hGD⟩ := hINVu
      refine ⟨hKd, ?_, hAV, hGD⟩
      intro j hj
      have hji : j ≠ i := by
        intro he
        subst he
        have hju : u.visited j = false := hj
        rw [hMu.1 j hvis] at hju
        exact Bool.noConfusion hju
      have hlj : u2.lists j = u.lists j := Function.update_noteq hji _ _
      rw [hlj]
      exact hLf j hj
    have hGray2 : ∀ g, Gray u2 g → rank i ≤ rank g := by
      intro g hg
      exact hGray g (hFu g hg)
    have hE2 : ∀ m, m ∈ ks → ∃ hm : m < (origB i).length,
        (u2.lists i).getD m Option.none = Option.some ((origB i).get ⟨m, hm⟩) := by
      intro m hm
      obtain ⟨hm2, hread2⟩ := hE m (List.mem_cons_of_mem _ hm)
      refine ⟨hm2, ?_⟩
      have hkm : k ≠ m := fun he => hndk (he ▸ hm)
      have h1 : u2.lists i = (u.lists i).set k Option.none := Function.update_same _ _ _
      rw [h1, getD_set_ne _ _ _ _ hkm, hLu i hvis]
      exact hread2
    have hC2 : ∀ b, b ∈ origB i → u2.keys b ≠ Option.none ∨
        ∃ m, m ∈ ks ∧ ∃ hm : m < (origB i).length, (origB i).get ⟨m, hm⟩ = b := by
      intro b hb
      rcases hC b hb with hassigned | ⟨m, hmmem, hm, hget⟩
      · left
        intro hnone
        apply hassigned
        cases htb : t.keys b with
        | none => rfl
        | some kb =>
          have := hMu.2.1 b kb htb
          have hub : u2.keys b = Option.some kb := this
          rw [hub] at hnone
          exact Option.noConfusion hnone
      · rcases List.mem_cons.mp hmmem with he | hmem2
        · subst he
          left
          have hbj : b = (origB i).get ⟨m, hk⟩ := by
            rw [← hget]
          rw [hbj]
          exact hkju
        · right
          exact ⟨m, hmem2, hm, hget⟩
    have hres := IH hndks u2 hINV2 hvisu2 hGray2 hE2 hC2
    obtain ⟨hINVf, hMf, hLfin, hFf, hGf, hJf⟩ := hres
    have hMuu2 : Mono u u2 := ⟨fun _ h => h, fun _ _ h => h, le_rfl⟩
    refine ⟨hINVf, Mono.trans (Mono.trans hMu hMuu2) hMf, ?_, ?_, ?_, hJf⟩
    · intro j hji hvj
      have h1 : u.lists j = t.lists j := hLu j hvj
      have h2 : u2.lists j = u.lists j := Function.update_noteq hji _ _
      have hvj2 : u2.visited j = true := hMu.1 j hvj
      rw [hLfin j hji hvj2, h2, h1]
    · intro g hg
      exact hFu g (hFf g hg)
    · intro g hg
      exact hGf g (hGu g hg)

end TopoSort

namespace TopoSort

lemma visitNode_unvisited {n : ℕ} (fuel : ℕ) (i : Fin n) (s : TState n)
    (hv : ¬ s.visited i = true) :
    visitNode (fuel + 1) i s =
      (fun s2 : TState n =>
        { s2 with keys := Function.update s2.keys i (Option.some s2.depth),
                  depth := s2.depth + 1 })
        (visitLoop (fun j t => visitNode fuel j t) i
          (List.range ((s.lists i)).length)
          { s with visited := Function.update s.visited i true }) := by
  rw [visitNode, if_neg hv]

/-- Folding the final aftermath of one unvisited visitNode call: given the
loop conclusion, marking plus assignment yields the full visit
conclusion. -/
lemma assign_ok {n : ℕ} (origB : Fin n → List (Fin n)) (s s2 : TState n) (i : Fin n)
    (hv : s.visited i = false) (hkeyi : s.keys i = Option.none) (hni : i ∉ origB i)
    (hLoop : LoopOK origB { s with visited := Function.update s.visited i true } s2 i) :
    VisitOK origB s
      { s2 with keys := Function.update s2.keys i (Option.some s2.depth), depth := s2.depth + 1 } i := by
  obtain ⟨⟨hKd2, hLf2, hAV2, hGD2⟩, hM2, hL2, hF2, hG2, hJ2⟩ := hLoop
  set s1 : TState n := { s with visited := Function.update s.visited i true } with hs1
  set sF : TState n := { s2 with keys := Function.update s2.keys i (Option.some s2.depth), depth := s2.depth + 1 } with hsF
  have hKproj : ∀ j, j ≠ i → sF.keys j = s2.keys j := fun j hji =>
    Function.update_noteq hji _ s2.keys
  have hKi : sF.keys i = Option.some s2.depth := Function.update_same i _ s2.keys
  have hV1proj : ∀ j, j ≠ i → s1.visited j = s.visited j := fun j hji =>
    Function.update_noteq hji true s.visited
  have hV1i : s1.visited i = true := Function.update_same i true s.visited
  have hgray1 : Gray s1 i := ⟨hV1i, hkeyi⟩
  have hgray2 : Gray s2 i := hG2 i hgray1
  have hvisi2 : s2.visited i = true := hgray2.1
  have hkeyi2 : s2.keys i = Option.none := hgray2.2
  refine ⟨⟨?_, ?_, ?_, ?_⟩, ⟨?_, ?_, ?_⟩, ?_, ?_, ?_, ?_, ?_⟩
  · -- key depth bound
    intro j k hkj
    by_cases hji : j = i
    · subst hji
      rw [hKi] at hkj
      cases hkj
      exact Nat.lt_succ_self _
    · rw [hKproj j hji] at hkj
      exact Nat.lt_succ_of_lt (hKd2 j k hkj)
  · -- fresh lists for unvisited nodes
    intro j hj
    exact hLf2 j hj
  · -- assigned implies visited
    intro j hkj
    by_cases hji : j = i
    · subst hji
      exact hvisi2
    · rw [hKproj j hji] at hkj
      exact hAV2 j hkj
  · -- GOOD
    intro a ka hka b hb
    by_cases hai : a = i
    · subst hai
      rw [hKi] at hka
      cases hka
      have hbni : b ≠ a := fun he => hni (he ▸ hb)
      have hbk := hJ2 b hb
      cases hkb : s2.keys b with
      | none => exact absurd hkb hbk
      | some kb =>
        refine ⟨kb, ?_, hKd2 b kb hkb⟩
        rw [hKproj b hbni]
        exact hkb
    · rw [hKproj a hai] at hka
      obtain ⟨kb, hkb, hlt⟩ := hGD2 a ka hka b hb
      by_cases hbi : b = i
      · subst hbi
        rw [hkeyi2] at hkb
        exact absurd hkb (fun h => Option.noConfusion h)
      · refine ⟨kb, ?_, hlt⟩
        rw [hKproj b hbi]
        exact hkb
  · -- visited monotone
    intro j hvj
    apply hM2.1 j
    by_cases hji : j = i
    · subst hji
      exact hV1i
    · rw [hV1proj j hji]
      exact hvj
  · -- keys monotone
    intro j k hkj
    have hji : j ≠ i := by
      intro he
      subst he
      rw [hkeyi] at hkj
      exact Option.noConfusion hkj
    have h2 : s2.keys j = Option.some k := hM2.2.1 j k hkj
    rw [hKproj j hji]
    exact h2
  · -- depth monotone
    exact le_trans hM2.2.2 (Nat.le_succ _)
  · -- lists of already-visited nodes untouched
    intro j hvj
    have hji : j ≠ i := by
      intro he
      subst he
      rw [hv] at hvj
      exact Bool.noConfusion hvj
    have hvj1 : s1.visited j = true := by
      rw [hV1proj j hji]
      exact hvj
    exact hL2 j hji hvj1
  · -- gray shrink
    intro g hg
    obtain ⟨hgv, hgk⟩ := hg
    have hgi : g ≠ i := by
      intro he
      subst he
      rw [hKi] at hgk
      exact Option.noConfusion hgk
    have hg2 : Gray s2 g := by
      refine ⟨hgv, ?_⟩
      rw [hKproj g hgi] at hgk
      exact hgk
    obtain ⟨hgv1, hgk1⟩ := hF2 g hg2
    refine ⟨?_, hgk1⟩
    rw [hV1proj g hgi] at hgv1
    exact hgv1
  · -- gray persist
    intro g hg
    obtain ⟨hgv, hgk⟩ := hg
    have hgi : g ≠ i := by
      intro he
      subst he
      rw [hv] at hgv
      exact Bool.noConfusion hgv
    have hg1 : Gray s1 g := by
      refine ⟨?_, hgk⟩
      rw [hV1proj g hgi]
      exact hgv
    obtain ⟨hgv2, hgk2⟩ := hG2 g hg1
    refine ⟨hgv2, ?_⟩
    rw [hKproj g hgi]
    exact hgk2
  · -- i is visited afterwards
    exact hvisi2
  · -- i is assigned afterwards
    rw [hKi]
    exact fun h => Option.noConfusion h

end TopoSort

namespace TopoSort

/-- The central specification of visitNode: under the invariant, with every
gray (in-progress) node of higher rank and with fuel above the node's rank,
a visit preserves the invariant, grows the state monotonically, leaves
visited nodes' lists and the gray set unchanged, and ends with the node
visited and assigned. -/
theorem visit_spec {n : ℕ} (origB : Fin n → List (Fin n)) (rank : Fin n → ℕ)
    (hrank : ∀ a b : Fin n, b ∈ origB a → rank b < rank a)
    (horig : ∀ i : Fin n, i ∉ origB i) :
    ∀ (fuel : ℕ) (i : Fin n) (s : TState n), INV origB s →
      (∀ g, Gray s g → rank i < rank g) → rank i < fuel →
      VisitOK origB s (visitNode fuel i s) i := by
  intro fuel
  induction fuel with
  | zero =>
    intro i s _ _ hf
    exact absurd hf (Nat.not_lt_zero _)
  | succ fuel IHf =>
    intro i s hINV hGray hfr
    by_cases hv : s.visited i = true
    · rw [visitNode, if_pos hv]
      have hki : s.keys i ≠ Option.none := fun hnone =>
        absurd (hGray i ⟨hv, hnone⟩) (lt_irrefl _)
      exact ⟨hINV, Mono.rfl s, fun _ _ => rfl, fun g hg => hg, fun g hg => hg, hv, hki⟩
    · have hvfalse : s.visited i = false := by
        cases hvv : s.visited i
        · rfl
        · exact absurd hvv hv
      have hkeyi : s.keys i = Option.none := by
        cases hki : s.keys i with
        | none => rfl
        | some k =>
          have hvis := hINV.2.2.1 i (by rw [hki]; exact fun h => Option.noConfusion h)
          rw [hvfalse] at hvis
          exact Bool.noConfusion hvis
      set s1 : TState n := { s with visited := Function.update s.visited i true } with hs1
      have hV1i : s1.visited i = true := Function.update_same i true s.visited
      have hINV1 : INV origB s1 := by
        obtain ⟨hKd, hLf, hAV, hGD⟩ := hINV
        refine ⟨hKd, ?_, ?_, hGD⟩
        · intro j hj
          have hji : j ≠ i := by
            intro he
            subst he
            rw [hV1i] at hj
            exact Bool.noConfusion hj
          have : s1.lists j = s.lists j := rfl
          rw [this]
          apply hLf j
          rw [← Function.update_noteq hji true s.visited]
          exact hj
        · intro j hkj
          by_cases hji : j = i
          · subst hji
            exact hV1i
          · rw [show s1.visited j = s.visited j from Function.update_noteq hji true s.visited]
            exact hAV j hkj
      have hGray1 : ∀ g, Gray s1 g → rank i ≤ rank g := by
        intro g hg
        by_cases hgi : g = i
        · subst hgi
          exact le_rfl
        · apply le_of_lt
          apply hGray g
          obtain ⟨hgv, hgk⟩ := hg
          refine ⟨?_, hgk⟩
          rw [← Function.update_noteq hgi true s.visited]
          exact hgv
      have hlists1 : s1.lists i = (origB i).map Option.some := hINV.2.1 i hvfalse
      have hlen : (s1.lists i).length = (origB i).length := by
        rw [hlists1, List.length_map]
      have hE0 : ∀ k, k ∈ List.range (s1.lists i).length →
          ∃ hk : k < (origB i).length,
            (s1.lists i).getD k Option.none = Option.some ((origB i).get ⟨k, hk⟩) := by
        intro k hkmem
        have hklt : k < (s1.lists i).length := List.mem_range.mp hkmem
        rw [hlen] at hklt
        refine ⟨hklt, ?_⟩
        rw [hlists1]
        exact getD_map_some _ _ hklt
      have hC0 : ∀ b, b ∈ origB i → s1.keys b ≠ Option.none ∨
          ∃ k, k ∈ List.range (s1.lists i).length ∧
            ∃ hk : k < (origB i).length, (origB i).get ⟨k, hk⟩ = b := by
        intro b hb
        right
        obtain ⟨⟨k, hk⟩, hget⟩ := List.mem_iff_get.mp hb
        refine ⟨k, ?_, hk, hget⟩
        apply List.mem_range.mpr
        rw [hlen]
        exact hk
      have hloop := visitLoop_spec origB rank hrank fuel IHf i (Nat.lt_succ_iff.mp hfr)
        (List.range (s1.lists i).length) (List.nodup_range _) s1 hINV1 hV1i hGray1 hE0 hC0
      rw [visitNode_unvisited fuel i s hv]
      exact assign_ok origB s _ i hvfalse hkeyi (horig i) hloop

end TopoSort

namespace TopoSort

lemma initState_INV {n : ℕ} (objs : Fin n → SortObj) (pad : ℚ) :
    INV (behindList objs pad) (initState objs pad) := by
  refine ⟨?_, ?_, ?_, ?_⟩
  · intro i k h
    exact Option.noConfusion h
  · intro i _
    rfl
  · intro i h
    exact absurd rfl h
  · intro a ka h
    exact Option.noConfusion h

lemma initState_noGray {n : ℕ} (objs : Fin n → SortObj) (pad : ℚ) :
    ∀ g, ¬ Gray (initState objs pad) g := by
  intro g hg
  exact Bool.noConfusion hg.1

lemma foldl_visit_all {n : ℕ} (origB : Fin n → List (Fin n)) (rank : Fin n → ℕ)
    (hrank : ∀ a b : Fin n, b ∈ origB a → rank b < rank a)
    (horig : ∀ i : Fin n, i ∉ origB i) (hbound : ∀ i : Fin n, rank i < n + 1) :
    ∀ (l : List (Fin n)) (s : TState n), INV origB s → (∀ g, ¬ Gray s g) →
      INV origB (l.foldl (fun t i => visitNode (n + 1) i t) s) ∧
      (∀ g, ¬ Gray (l.foldl (fun t i => visitNode (n + 1) i t) s) g) ∧
      (∀ j k, s.keys j = Option.some k →
        (l.foldl (fun t i => visitNode (n + 1) i t) s).keys j = Option.some k) ∧
      (∀ i, i ∈ l → (l.foldl (fun t i => visitNode (n + 1) i t) s).keys i ≠ Option.none) := by
  intro l
  induction l with
  | nil =>
    intro s hINV hNG
    exact ⟨hINV, hNG, fun j k h => h, fun i hi => absurd hi (List.not_mem_nil i)⟩
  | cons i l IH =>
    intro s hINV hNG
    obtain ⟨hINVu, hMu, _, hFu, _, hviu, hkiu⟩ :=
      visit_spec origB rank hrank horig (n + 1) i s hINV
        (fun g hg => absurd hg (hNG g)) (hbound i)
    have hNGu : ∀ g, ¬ Gray (visitNode (n + 1) i s) g := fun g hg => hNG g (hFu g hg)
    have hstep : (i :: l).foldl (fun t i => visitNode (n + 1) i t) s =
        l.foldl (fun t i => visitNode (n + 1) i t) (visitNode (n + 1) i s) := rfl
    obtain ⟨hi1, hi2, hi3, hi4⟩ := IH (visitNode (n + 1) i s) hINVu hNGu
    rw [hstep]
    refine ⟨hi1, hi2, ?_, ?_⟩
    · intro j k h
      exact hi3 j k (hMu.2.1 j k h)
    · intro j hj
      rcases List.mem_cons.mp hj with he | hmem
      · subst he
        cases hku : (visitNode (n + 1) j s).keys j with
        | none => exact absurd hku hkiu
        | some k =>
          intro hcon
          rw [hi3 j k hku] at hcon
          exact Option.noConfusion hcon
      · exact hi4 j hmem

lemma rank_normalize {n : ℕ} (rank : Fin n → ℕ) :
    ∃ rank2 : Fin n → ℕ, (∀ a b : Fin n, rank b < rank a → rank2 b < rank2 a) ∧
      ∀ i, rank2 i < n + 1 := by
  refine ⟨fun i => (Finset.univ.filter (fun j => rank j < rank i)).card, ?_, ?_⟩
  · intro a b hba
    apply Finset.card_lt_card
    rw [Finset.ssubset_def]
    constructor
    · intro j hj
      rw [Finset.mem_filter] at hj ⊢
      exact ⟨Finset.mem_univ j, lt_trans hj.2 hba⟩
    · intro hcon
      have hb : b ∈ Finset.univ.filter (fun j => rank j < rank a) :=
        Finset.mem_filter.mpr ⟨Finset.mem_univ b, hba⟩
      have hmem := hcon hb
      rw [Finset.mem_filter] at hmem
      exact absurd hmem.2 (lt_irrefl _)
  · intro i
    apply Nat.lt_succ_of_le
    calc (Finset.univ.filter (fun j => rank j < rank i)).card
        ≤ Finset.univ.card := Finset.card_filter_le _ _
      _ = n := by rw [Finset.card_univ, Fintype.card_fin]

lemma behindList_not_self {n : ℕ} (objs : Fin n → SortObj) (pad : ℚ) (i : Fin n) :
    i ∉ behindList objs pad i := by
  intro h
  rw [behindList, List.mem_filter] at h
  have hdec := h.2
  rw [decide_eq_true_eq] at hdec
  exact hdec.1 rfl

end TopoSort

/-- Claim C5: whenever the padded behind-relation recorded by
topologicalSort (b recorded as behind a iff b's padded position is strictly
behind all three padded front faces of a's bounds) is acyclic — witnessed
by a rank function strictly decreasing along recorded behind edges — the
sort assigns every object a key, and every object receives a strictly
higher key than every object recorded as behind it. -/
theorem topologicalSort_key_order {n : ℕ} (objs : Fin n → TopoSort.SortObj) (pad : ℚ)
    (rank : Fin n → ℕ)
    (hrank : ∀ a b : Fin n, b ∈ TopoSort.behindList objs pad a → rank b < rank a)
    (a b : Fin n) (hmem : b ∈ TopoSort.behindList objs pad a) :
    ∃ ka kb, TopoSort.topoSortKeys objs pad a = Option.some ka ∧
      TopoSort.topoSortKeys objs pad b = Option.some kb ∧ kb < ka := by
  obtain ⟨rank2, hr2, hb2⟩ := TopoSort.rank_normalize rank
  have hrank2 : ∀ x y : Fin n, y ∈ TopoSort.behindList objs pad x → rank2 y < rank2 x :=
    fun x y hxy => hr2 x y (hrank x y hxy)
  obtain ⟨hINVf, hNGf, _, hAllf⟩ := TopoSort.foldl_visit_all (TopoSort.behindList objs pad)
    rank2 hrank2 (TopoSort.behindList_not_self objs pad) hb2 (List.finRange n)
    (TopoSort.initState objs pad)
    (TopoSort.initState_INV objs pad) (TopoSort.initState_noGray objs pad)
  have haKey := hAllf a (List.mem_finRange a)
  cases hka : ((List.finRange n).foldl (fun s i => TopoSort.visitNode (n + 1) i s)
      (TopoSort.initState objs pad)).keys a with
  | none => exact absurd hka haKey
  | some ka =>
    obtain ⟨kb, hkb, hlt⟩ := hINVf.2.2.2 a ka hka b hmem
    exact ⟨ka, kb, hka, hkb, hlt⟩

theorem topologicalSort_key_order_witness :
    ∃ ka kb,
      TopoSort.topoSortKeys
        (fun i : Fin 2 => if i = 0 then ⟨5, 5, 5, 10, 10, 10⟩ else ⟨0, 0, 0, 2, 2, 2⟩) 2
        0 = Option.some ka ∧
      TopoSort.topoSortKeys
        (fun i : Fin 2 => if i = 0 then ⟨5, 5, 5, 10, 10, 10⟩ else ⟨0, 0, 0, 2, 2, 2⟩) 2
        1 = Option.some kb ∧ kb < ka := by
  have hmem : (1 : Fin 2) ∈ TopoSort.behindList
      (fun i : Fin 2 => if i = 0 then ⟨5, 5, 5, 10, 10, 10⟩ else ⟨0, 0, 0, 2, 2, 2⟩) 2 0 := by
    rw [TopoSort.behindList, List.mem_filter]
    refine ⟨by simp [List.mem_finRange], ?_⟩
    rw [decide_eq_true_eq]
    refine ⟨by decide, ?_⟩
    norm_num [TopoSort.behindCond]
  have hfin : ∀ x : Fin 2, x = 0 ∨ x = 1 := by decide
  have hrank : ∀ a b : Fin 2, b ∈ TopoSort.behindList
      (fun i : Fin 2 => if i = 0 then ⟨5, 5, 5, 10, 10, 10⟩ else ⟨0, 0, 0, 2, 2, 2⟩) 2 a →
      (fun i : Fin 2 => if i = 0 then 1 else 0) b <
        (fun i : Fin 2 => if i = 0 then 1 else 0) a := by
    intro a b hab
    rw [TopoSort.behindList, List.mem_filter, decide_eq_true_eq] at hab
    obtain ⟨_, hne, hcond⟩ := hab
    rcases hfin a with ha | ha <;> rcases hfin b with hb | hb <;> subst ha <;> subst hb
    · exact absurd rfl hne
    · norm_num
    · exfalso
      norm_num [TopoSort.behindCond] at hcond
    · exact absurd rfl hne
  exact topologicalSort_key_order
    (fun i : Fin 2 => if i = 0 then ⟨5, 5, 5, 10, 10, 10⟩ else ⟨0, 0, 0, 2, 2, 2⟩) 2
    (fun i : Fin 2 => if i = 0 then 1 else 0) hrank 0 1 hmem

end IsoPlugin
